import Mathlib

/-!
# whisper-coreml: the orchestration layer around whisper.cpp

A shallow embedding of `src/whisper_engine.cc`, `src/whisper_engine.h` and the
engine registry of `src/addon.cc`.

* `std::string` is a list of characters.
* The external engine (whisper.cpp) is a record of functions, `Env`; the opaque
  `whisper_context` is a type parameter `Ctx`, and a call that mutates the context
  returns the new one.
* Every call into the external engine is recorded in a list of `EngineCall`s, so that
  "is not invoked" and "is released once" can be stated.
* The index arithmetic of the resampler is done in `double` in the source.  It is
  embedded exactly: `toDouble` is IEEE-754 binary64 rounding (to nearest, ties to even)
  of a nonnegative rational.
* The allocation of the resampled buffer (line 86) succeeds up to a `capacity` in floats,
  a parameter of `resizeSucceeds` and `resampleReads`; above it `resize` throws and nothing
  is read.
* The audio samples themselves are kept abstract (a type parameter `Sample` with the
  interpolation formula as a function of the environment): no statement below depends on
  sample values.
-/

namespace WhisperCoreML

/-! ## Strings -/

/-- Sequence of `char`, the model of `std::string`. -/
abbrev CppString := List Char

/-- The space character, written `' '` in the source. -/
def SPACE : Char := Char.ofNat 32

/-- The argument `" \t\n\r"` of both `find_..._not_of` calls in `transcribe`. -/
def TRIM_CHARS : CppString := [Char.ofNat 32, Char.ofNat 9, Char.ofNat 10, Char.ofNat 13]

/-- Model of `std::string::find_first_not_of(chars)`: the index of the first character that
is not one of `chars`; `none` is `std::string::npos`. -/
def find_first_not_of : CppString → CppString → Option Nat
  | [], _ => none
  | c :: s, chars =>
    if c ∈ chars then (find_first_not_of s chars).map (· + 1) else some 0

/-- Model of `std::string::find_last_not_of(chars)`: the index of the last character that is
not one of `chars`; `none` is `std::string::npos`. -/
def find_last_not_of : CppString → CppString → Option Nat
  | [], _ => none
  | c :: s, chars =>
    match find_last_not_of s chars with
    | some i => some (i + 1)
    | none => if c ∈ chars then none else some 0

/-- Model of `std::string::substr(pos, len)` for `pos ≤ size()`. -/
def substr (s : CppString) (pos len : Nat) : CppString := (s.drop pos).take len

/-- Lines 170-177 of `whisper_engine.cc`: the trimmed text stored in `txResult.text`. -/
def trimText (fullText : CppString) : CppString :=
  match find_first_not_of fullText TRIM_CHARS, find_last_not_of fullText TRIM_CHARS with
  | some start, some stop => substr fullText start (stop - start + 1)
  | _, _ => []

/-- Lines 164-167 of `whisper_engine.cc`: one step of building `fullText`. -/
def appendSegmentText (fullText text : CppString) : CppString :=
  (if fullText ≠ [] ∧ text ≠ [] ∧ text.head? ≠ some SPACE then fullText ++ [SPACE]
   else fullText) ++ text

/-- The value of `fullText` after the loop of lines 153-168 has seen the given segment
texts, starting from the empty string. -/
def buildFullText (texts : List CppString) : CppString :=
  texts.foldl appendSegmentText []

/-- Model of `std::to_string(int)`: the decimal rendering, with a leading minus sign for a
negative value. -/
def to_string (c : Int) : CppString := (toString c).toList

/-! ## IEEE-754 binary64 on nonnegative values -/

/-- A nonnegative rational `num / den`; every `double` that occurs in the resampler's index
arithmetic is one of these, with `den` a power of two. -/
structure Frac where
  num : Nat
  den : Nat
deriving DecidableEq, Repr

/-- The rational value of a `Frac`. -/
def Frac.toRat (x : Frac) : ℚ := (x.num : ℚ) / (x.den : ℚ)

/-- Value `a / b` rounded to the nearest integer, ties to the even one. -/
def roundHalfEven (a b : Nat) : Nat :=
  let q := a / b
  let r := a % b
  if 2 * r < b then q
  else if b < 2 * r then q + 1
  else if q % 2 = 0 then q else q + 1

/-- Fuelled binary logarithm. -/
def log2Fuel : Nat → Nat → Nat
  | 0, _ => 0
  | fuel + 1, n => if 2 ≤ n then log2Fuel fuel (n / 2) + 1 else 0

/-- Value `⌊log₂ n⌋` for `n > 0`. -/
def log2 (n : Nat) : Nat := log2Fuel n n

/-- Value `⌊log₂ (a / b)⌋` for `a, b > 0`. -/
def ilog2 (a b : Nat) : Int :=
  let la := log2 a
  let lb := log2 b
  if 2 ^ la * b ≤ a * 2 ^ lb then (la : Int) - lb else (la : Int) - lb - 1

/-- The binary64 value nearest to `a / b` (round to nearest, ties to even; 53-bit
significand, least exponent `-1022`, so subnormals are included).  Overflow to infinity is
not represented: with `sampleCount < 2 ^ 64` and `sampleRate > 0` every value computed
below is less than `2 ^ 83`. -/
def toDouble (a b : Nat) : Frac :=
  if a = 0 then ⟨0, 1⟩
  else
    let e := max (ilog2 a b) (-1022)
    let s : Int := 52 - e
    if 0 ≤ s then ⟨roundHalfEven (a * 2 ^ s.toNat) b, 2 ^ s.toNat⟩
    else ⟨roundHalfEven a (b * 2 ^ (-s).toNat) * 2 ^ (-s).toNat, 1⟩

/-- Conversion of an unsigned integer to `double`. -/
def Frac.ofNat (n : Nat) : Frac := toDouble n 1

/-- The `double` product `x * y`. -/
def dmul (x y : Frac) : Frac := toDouble (x.num * y.num) (x.den * y.den)

/-- The `double` quotient `x / y`, for `y > 0`. -/
def ddiv (x y : Frac) : Frac := toDouble (x.num * y.den) (x.den * y.num)

/-- The `double` difference `x - y`, for `y ≤ x`. -/
def dsub (x y : Frac) : Frac := toDouble (x.num * y.den - y.num * x.den) (x.den * y.den)

/-- The conversion `static_cast<size_t>(x)` of a nonnegative `double` below `2 ^ 64`:
truncation. -/
def Frac.trunc (x : Frac) : Nat := x.num / x.den

/-! ## The resampler (lines 82-100 of `whisper_engine.cc`) -/

/-- Modelled from the spec: the macro `WHISPER_SAMPLE_RATE` of the external header
`whisper.h`, the engine's fixed input rate of 16 kHz. -/
def WHISPER_SAMPLE_RATE : Nat := 16000

/-- The number of values of `size_t`. -/
def SIZE_MOD : Nat := 2 ^ 64

/-- Line 84: `ratio = static_cast<double>(WHISPER_SAMPLE_RATE) / sampleRate`, for
`sampleRate > 0`. -/
def ratio (sampleRate : Nat) : Frac :=
  ddiv (Frac.ofNat WHISPER_SAMPLE_RATE) (Frac.ofNat sampleRate)

/-- Line 85: `newSize = static_cast<size_t>(sampleCount * ratio)`. -/
def newSize (sampleCount sampleRate : Nat) : Nat :=
  (dmul (Frac.ofNat sampleCount) (ratio sampleRate)).trunc

/-- Line 89: `srcIdx = i / ratio`. -/
def srcIdx (sampleRate i : Nat) : Frac := ddiv (Frac.ofNat i) (ratio sampleRate)

/-- Line 90: `idx0 = static_cast<size_t>(srcIdx)`. -/
def idx0 (sampleRate i : Nat) : Nat := (srcIdx sampleRate i).trunc

/-- Line 91: `idx1 = std::min(idx0 + 1, sampleCount - 1)`, in `size_t` arithmetic. -/
def idx1 (sampleCount sampleRate i : Nat) : Nat :=
  min ((idx0 sampleRate i + 1) % SIZE_MOD) ((sampleCount + SIZE_MOD - 1) % SIZE_MOD)

/-- Line 92: `frac = srcIdx - idx0`. -/
def frac (sampleRate i : Nat) : Frac :=
  dsub (srcIdx sampleRate i) (Frac.ofNat (idx0 sampleRate i))

/-- The sample indices read while computing output sample `i` (lines 93-95). -/
def readIndices (sampleCount sampleRate i : Nat) : List Nat :=
  [idx0 sampleRate i, idx1 sampleCount sampleRate i]

/-- Line 86: `resampledSamples.resize(newSize)`.  The process can hold `capacity` floats; a
request above that makes `resize` throw (`std::bad_alloc`, or `std::length_error` above
`max_size()`), and the loop of lines 88-96 is not reached. -/
def resizeSucceeds (capacity newSize : Nat) : Bool := decide (newSize ≤ capacity)

/-- All sample indices read by lines 86-96, in order: those of the loop when the allocation
of line 86 succeeds, none when it throws. -/
def resampleReads (capacity sampleCount sampleRate : Nat) : List Nat :=
  if resizeSucceeds capacity (newSize sampleCount sampleRate) then
    (List.range (newSize sampleCount sampleRate)).flatMap (readIndices sampleCount sampleRate)
  else []

/-! ## Data model (`whisper_engine.h`) -/

/-- The struct `TranscriptionSegment`.  The times are `int64_t` milliseconds; they are
modelled as unbounded integers, the engine's tick values being bounded by the length of the
audio (at most `2 ^ 31` samples).  The `float` confidence is a rational. -/
structure TranscriptionSegment where
  startMs : Int
  endMs : Int
  text : CppString
  confidence : ℚ
deriving DecidableEq

/-- The struct `TranscriptionResult`. -/
structure TranscriptionResult where
  text : CppString
  language : CppString
  durationMs : ℚ
  segments : List TranscriptionSegment
deriving DecidableEq

/-- The struct `WhisperEngineOptions`, with its default member initialisers. -/
structure WhisperEngineOptions where
  modelPath : CppString
  language : CppString := "auto".toList
  translate : Bool := false
  withTimestamps : Bool := true
  threads : Int := 0
deriving DecidableEq

/-! ## The external engine -/

/-- The decoding strategies of `whisper.h`. -/
inductive SamplingStrategy where
  | greedy
  | beamSearch
deriving DecidableEq

/-- The members of `whisper_full_params` that `transcribe` assigns, and the strategy the
defaults were requested for. -/
structure WhisperFullParams where
  strategy : SamplingStrategy
  language : CppString
  detect_language : Bool
  translate : Bool
  no_timestamps : Bool
  n_threads : Int
  print_progress : Bool
  print_realtime : Bool
  print_special : Bool
  print_timestamps : Bool
  single_segment : Bool
  token_timestamps : Bool
  n_max_text_ctx : Int
deriving DecidableEq

/-- The functions of whisper.cpp that the engine calls, and the two inputs of
`transcribe` that no statement below looks into: the arithmetic on sample values
(line 93-95, `lerp s0 s1 frac`; `outOfRange` is what a read outside the buffer yields)
and the wall clock (`elapsedMs`). -/
structure Env (Ctx Sample : Type) where
  whisper_init_from_file_with_params : CppString → Option Ctx
  whisper_full_default_params : SamplingStrategy → WhisperFullParams
  whisper_full : Ctx → WhisperFullParams → List Sample → Int → Int × Ctx
  whisper_full_lang_id : Ctx → Int
  whisper_lang_str : Int → CppString
  whisper_full_n_segments : Ctx → Int
  whisper_full_get_segment_text : Ctx → Int → Option CppString
  whisper_full_get_segment_t0 : Ctx → Int → Int
  whisper_full_get_segment_t1 : Ctx → Int → Int
  lerp : Sample → Sample → Frac → Sample
  outOfRange : Sample
  elapsedMs : ℚ

/-- A call into whisper.cpp, as recorded in the order the calls are made. -/
inductive EngineCall (Ctx : Type) where
  | log_set
  | init_from_file (path : CppString)
  | full (ctx : Ctx) (params : WhisperFullParams) (n_samples : Int)
  | free (ctx : Ctx)
deriving DecidableEq

/-! ## The engine (`whisper_engine.cc`) -/

/-- The struct `WhisperEngine::Impl`; `ctx = none` is the null pointer. -/
structure Impl (Ctx : Type) where
  ctx : Option Ctx
  options : WhisperEngineOptions
  detectedLanguage : CppString
  ready : Bool
deriving DecidableEq

/-- The class `WhisperEngine`: the owning pointer `pImpl`. -/
structure WhisperEngine (Ctx : Type) where
  pImpl : Option (Impl Ctx)
deriving DecidableEq

/-- The destructor `Impl::~Impl` (lines 30-35): the calls it makes. -/
def Impl.destroy {Ctx : Type} (p : Impl Ctx) : List (EngineCall Ctx) :=
  match p.ctx with
  | some c => [EngineCall.free c]
  | none => []

/-- The constructor (lines 38-60).  It either throws (`Except.error` with the message) or
yields the new engine; the second component lists the calls made. -/
def WhisperEngine.construct {Ctx Sample : Type} (env : Env Ctx Sample)
    (options : WhisperEngineOptions) :
    Except CppString (WhisperEngine Ctx) × List (EngineCall Ctx) :=
  match env.whisper_init_from_file_with_params options.modelPath with
  | none =>
    (Except.error ("Failed to load Whisper model from: ".toList ++ options.modelPath),
      [EngineCall.log_set, EngineCall.init_from_file options.modelPath])
  | some c =>
    (Except.ok ⟨some ⟨some c, options, [], true⟩⟩,
      [EngineCall.log_set, EngineCall.init_from_file options.modelPath])

/-- The member `isReady` (lines 66-68). -/
def WhisperEngine.isReady {Ctx : Type} (e : WhisperEngine Ctx) : Bool :=
  match e.pImpl with
  | some p => p.ready && p.ctx.isSome
  | none => false

/-- The member `cleanup` (lines 194-202): the engine afterwards and the calls made. -/
def WhisperEngine.cleanup {Ctx : Type} (e : WhisperEngine Ctx) :
    WhisperEngine Ctx × List (EngineCall Ctx) :=
  match e.pImpl with
  | some p =>
    match p.ctx with
    | some c => (⟨some ⟨none, p.options, p.detectedLanguage, false⟩⟩, [EngineCall.free c])
    | none => (⟨some ⟨none, p.options, p.detectedLanguage, false⟩⟩, [])
  | none => (e, [])

/-- The destructor `~WhisperEngine` (lines 62-64) followed by the destruction of `pImpl`:
the calls made. -/
def WhisperEngine.destroy {Ctx : Type} (e : WhisperEngine Ctx) : List (EngineCall Ctx) :=
  let r := e.cleanup
  r.2 ++ (match r.1.pImpl with
          | some p => p.destroy
          | none => [])

/-- The member `getDetectedLanguage` (lines 190-192). -/
def WhisperEngine.getDetectedLanguage {Ctx : Type} (e : WhisperEngine Ctx) : CppString :=
  match e.pImpl with
  | some p => p.detectedLanguage
  | none => []

/-- Lines 88-96: output sample `i` of the resampling loop. -/
def resampleAt {Ctx Sample : Type} (env : Env Ctx Sample) (samples : List Sample)
    (sampleRate i : Nat) : Sample :=
  env.lerp (samples.getD (idx0 sampleRate i) env.outOfRange)
    (samples.getD (idx1 samples.length sampleRate i) env.outOfRange)
    (frac sampleRate i)

/-- Lines 78-100: the audio handed to the engine, `audioData` with its `audioSize`
elements, once the allocation of line 86 has succeeded (`resizeSucceeds`). -/
def audioData {Ctx Sample : Type} (env : Env Ctx Sample) (samples : List Sample)
    (sampleRate : Nat) : List Sample :=
  if sampleRate ≠ WHISPER_SAMPLE_RATE then
    (List.range (newSize samples.length sampleRate)).map (resampleAt env samples sampleRate)
  else samples

/-- The conversion `static_cast<int>(audioSize)` of line 132. -/
def toInt32 (n : Nat) : Int := ((n : Int) + 2 ^ 31) % 2 ^ 32 - 2 ^ 31

/-- Lines 103-129: the decoding parameters derived from the options. -/
def buildParams {Ctx Sample : Type} (env : Env Ctx Sample) (options : WhisperEngineOptions) :
    WhisperFullParams :=
  let wparams := env.whisper_full_default_params SamplingStrategy.greedy
  let wparams : WhisperFullParams :=
    if options.language = "auto".toList then
      { wparams with language := "en".toList, detect_language := false }
    else
      { wparams with language := options.language, detect_language := false }
  { wparams with
    translate := options.translate
    no_timestamps := false
    n_threads := if options.threads > 0 then options.threads else 4
    print_progress := false
    print_realtime := false
    print_special := false
    print_timestamps := false
    single_segment := false
    token_timestamps := true
    n_max_text_ctx := 16384 }

/-- The loop body of lines 154-167 for segment `i`: the segment pushed onto
`txResult.segments` and the new `fullText`. -/
def collectStep {Ctx Sample : Type} (env : Env Ctx Sample) (ctx : Ctx)
    (acc : List TranscriptionSegment × CppString) (i : Nat) :
    List TranscriptionSegment × CppString :=
  let segmentText := env.whisper_full_get_segment_text ctx i
  let segment : TranscriptionSegment :=
    { startMs := env.whisper_full_get_segment_t0 ctx i * 10
      endMs := env.whisper_full_get_segment_t1 ctx i * 10
      text := match segmentText with
        | some t => t
        | none => []
      confidence := 1 }
  (acc.1 ++ [segment], appendSegmentText acc.2 segment.text)

/-- Lines 150-168: `txResult.segments` and `fullText` after the loop. -/
def collectSegments {Ctx Sample : Type} (env : Env Ctx Sample) (ctx : Ctx) :
    List TranscriptionSegment × CppString :=
  (List.range (env.whisper_full_n_segments ctx).toNat).foldl (collectStep env ctx) ([], [])

/-- What a call of `transcribe` leaves behind: the returned result or the message of the
exception thrown, the engine afterwards, and the calls made into whisper.cpp. -/
structure TranscribeOutcome (Ctx : Type) where
  result : Except CppString TranscriptionResult
  engine : WhisperEngine Ctx
  calls : List (EngineCall Ctx)

/-- Lines 75-183 of `transcribe`: what happens once the readiness check has passed, for the
engine state `p` holding the context `ctx`. -/
def transcribeReady {Ctx Sample : Type} (env : Env Ctx Sample) (p : Impl Ctx) (ctx : Ctx)
    (samples : List Sample) (sampleRate : Nat) : TranscribeOutcome Ctx :=
  let audio := audioData env samples sampleRate
  let wparams := buildParams env p.options
  let n_samples := toInt32 audio.length
  let r := env.whisper_full ctx wparams audio n_samples
  let calls := [EngineCall.full ctx wparams n_samples]
  if r.1 ≠ 0 then
    ⟨Except.error ("Whisper transcription failed with code: ".toList ++ to_string r.1),
      ⟨some { p with ctx := some r.2 }⟩, calls⟩
  else
    let detectedLanguage :=
      if wparams.detect_language then env.whisper_lang_str (env.whisper_full_lang_id r.2)
      else p.options.language
    let collected := collectSegments env r.2
    ⟨Except.ok
        { text := trimText collected.2
          language := detectedLanguage
          durationMs := env.elapsedMs
          segments := collected.1 },
      ⟨some { p with ctx := some r.2, detectedLanguage := detectedLanguage }⟩, calls⟩

/-- The member `transcribe` (lines 70-183), for `sampleRate > 0`; `samples.length` is the
argument `sampleCount`.  The check of lines 71-73 comes first; past it `pImpl` and
`pImpl->ctx` are non-null. -/
def WhisperEngine.transcribe {Ctx Sample : Type} (env : Env Ctx Sample)
    (e : WhisperEngine Ctx) (samples : List Sample) (sampleRate : Nat) :
    TranscribeOutcome Ctx :=
  if e.isReady = false then
    ⟨Except.error "WhisperEngine not initialized".toList, e, []⟩
  else
    match e.pImpl with
    | some p =>
      match p.ctx with
      | some ctx => transcribeReady env p ctx samples sampleRate
      | none => ⟨Except.error "WhisperEngine not initialized".toList, e, []⟩
    | none => ⟨Except.error "WhisperEngine not initialized".toList, e, []⟩

/-! ## The engine registry (`addon.cc`) -/

/-- The options object passed to `Initialize`, after the checks `Has(..)` and
`Is...()`: a member is `none` when it is missing or of the wrong type. -/
structure JsOptions where
  modelPath : Option CppString
  language : Option CppString
  threads : Option Int

/-- A pending JavaScript exception. -/
inductive JsError where
  | typeError (message : CppString)
  | error (message : CppString)
deriving DecidableEq

/-- What a call of `Initialize` leaves behind: its return value (`true`) or the pending
exception, the registry `g_engine` afterwards, and the calls made into whisper.cpp. -/
structure InitializeOutcome (Ctx : Type) where
  result : Except JsError Bool
  registry : Option (WhisperEngine Ctx)
  calls : List (EngineCall Ctx)

/-- The function `Initialize` (lines 17-51); `arg` is `none` when there is no first
argument or it is not an object.  Assigning to `g_engine` destroys the engine it held. -/
def Initialize {Ctx Sample : Type} (env : Env Ctx Sample) (g_engine : Option (WhisperEngine Ctx))
    (arg : Option JsOptions) : InitializeOutcome Ctx :=
  match arg with
  | none => ⟨Except.error (JsError.typeError "Expected options object".toList), g_engine, []⟩
  | some options =>
    match options.modelPath with
    | none => ⟨Except.error (JsError.typeError "modelPath is required".toList), g_engine, []⟩
    | some modelPath =>
      let engineOptions : WhisperEngineOptions := { modelPath := modelPath }
      let engineOptions : WhisperEngineOptions :=
        match options.language with
        | some l => { engineOptions with language := l }
        | none => engineOptions
      let engineOptions : WhisperEngineOptions :=
        match options.threads with
        | some t => { engineOptions with threads := t }
        | none => engineOptions
      match WhisperEngine.construct env engineOptions with
      | (Except.ok e, calls) =>
        ⟨Except.ok true, some e,
          calls ++ (match g_engine with
                    | some old => old.destroy
                    | none => [])⟩
      | (Except.error what, calls) =>
        ⟨Except.error (JsError.error ("Failed to initialize Whisper: ".toList ++ what)),
          g_engine, calls⟩

/-- The function `IsInitialized` (lines 56-59). -/
def IsInitialized {Ctx : Type} (g_engine : Option (WhisperEngine Ctx)) : Bool :=
  match g_engine with
  | some e => e.isReady
  | none => false

/-- The function `Cleanup` (lines 124-133): the registry afterwards and the calls made
(`cleanup()`, then `reset()` destroys the engine). -/
def Cleanup {Ctx : Type} (g_engine : Option (WhisperEngine Ctx)) :
    Option (WhisperEngine Ctx) × List (EngineCall Ctx) :=
  match g_engine with
  | some e =>
    let r := e.cleanup
    (none, r.2 ++ r.1.destroy)
  | none => (none, [])

/-! ## Definitions used to state the properties -/

/-- Following the spec's words ("insert a single separating space between two non-empty
segments only when the trailing segment's text does not already begin with a space"): what
stands between a segment and the non-empty segment `next` after it. -/
def separatorBefore (next : CppString) : CppString :=
  if next.head? = some SPACE then [] else [SPACE]

/-- Following the spec's words: the texts in order, each one after the first preceded by its
separator. -/
def joinSegments : List CppString → CppString
  | [] => []
  | [a] => a
  | a :: b :: rest => a ++ separatorBefore b ++ joinSegments (b :: rest)

/-- The segment texts the engine reports for a context, in segment order (`""` for a null
pointer). -/
def segmentTexts {Ctx Sample : Type} (env : Env Ctx Sample) (ctx : Ctx) : List CppString :=
  (List.range (env.whisper_full_n_segments ctx).toNat).map fun (i : Nat) =>
    match env.whisper_full_get_segment_text ctx (i : Int) with
    | some t => t
    | none => []

/-- What follows the first text in `joinSegments`. -/
def joinTail : List CppString → CppString
  | [] => []
  | b :: rest => separatorBefore b ++ joinSegments (b :: rest)

/-- The segments the engine reports for a context, in segment order: the two tick values and
the text pointer of each. -/
def engineSegments {Ctx Sample : Type} (env : Env Ctx Sample) (ctx : Ctx) :
    List (Int × Int × Option CppString) :=
  (List.range (env.whisper_full_n_segments ctx).toNat).map fun (i : Nat) =>
    (env.whisper_full_get_segment_t0 ctx (i : Int), env.whisper_full_get_segment_t1 ctx (i : Int),
      env.whisper_full_get_segment_text ctx (i : Int))

/-- Following the spec's words: an engine segment with its times converted to
milliseconds by the factor 10 and the constant confidence. -/
def toResultSegment (s : Int × Int × Option CppString) : TranscriptionSegment :=
  { startMs := 10 * s.1
    endMs := 10 * s.2.1
    text := match s.2.2 with
      | some t => t
      | none => []
    confidence := 1 }

/-- The defaults of the demonstration engine. -/
def demoDefaults (strategy : SamplingStrategy) : WhisperFullParams :=
  { strategy := strategy
    language := "en".toList
    detect_language := true
    translate := false
    no_timestamps := true
    n_threads := 1
    print_progress := true
    print_realtime := false
    print_special := false
    print_timestamps := true
    single_segment := true
    token_timestamps := false
    n_max_text_ctx := 0 }

/-- A demonstration engine.  The context counts decode calls; only "model.bin" loads; a
decode of exactly three samples fails with status 7; two segments "hello" and " world" are
reported. -/
def demoEnv : Env Nat Nat :=
  { whisper_init_from_file_with_params := fun path =>
      if path = "model.bin".toList then some 0 else none
    whisper_full_default_params := demoDefaults
    whisper_full := fun ctx _ audio _ => (if audio.length = 3 then 7 else 0, ctx + 1)
    whisper_full_lang_id := fun _ => 0
    whisper_lang_str := fun _ => "de".toList
    whisper_full_n_segments := fun _ => 2
    whisper_full_get_segment_text := fun _ i =>
      if i = 0 then some "hello".toList else some " world".toList
    whisper_full_get_segment_t0 := fun _ i => 150 * i
    whisper_full_get_segment_t1 := fun _ i => 150 * i + 150
    lerp := fun a _ _ => a
    outOfRange := 0
    elapsedMs := 12 }

/-- Options object naming the model that loads. -/
def goodOptions : JsOptions :=
  { modelPath := some "model.bin".toList, language := none, threads := none }

/-- Options object naming a model that does not load. -/
def badOptions : JsOptions :=
  { modelPath := some "missing.bin".toList, language := none, threads := none }

/-- The registry after a successful `Initialize` of the demonstration engine. -/
def demoRegistry : Option (WhisperEngine Nat) :=
  (Initialize demoEnv none (some goodOptions)).registry

/-- The engine held by `demoRegistry`, written out. -/
def demoEngine : WhisperEngine Nat :=
  ⟨some ⟨some 0, { modelPath := "model.bin".toList }, [], true⟩⟩

/-! ## The engine: readiness and the shape of `transcribe` -/

theorem isReady_iff {Ctx : Type} (e : WhisperEngine Ctx) :
    e.isReady = true ↔ ∃ p ctx, e.pImpl = some p ∧ p.ready = true ∧ p.ctx = some ctx := by
  unfold WhisperEngine.isReady
  cases hp : e.pImpl with
  | none => simp
  | some p =>
    cases hc : p.ctx with
    | none => simp [hc]
    | some c => simp [hc]

theorem isReady_of {Ctx : Type} (e : WhisperEngine Ctx) (p : Impl Ctx) (ctx : Ctx)
    (hp : e.pImpl = some p) (hr : p.ready = true) (hc : p.ctx = some ctx) :
    e.isReady = true :=
  (isReady_iff e).mpr ⟨p, ctx, hp, hr, hc⟩

theorem transcribe_ready {Ctx Sample : Type} (env : Env Ctx Sample) (e : WhisperEngine Ctx)
    (samples : List Sample) (sampleRate : Nat) (p : Impl Ctx) (ctx : Ctx)
    (hp : e.pImpl = some p) (hr : p.ready = true) (hc : p.ctx = some ctx) :
    e.transcribe env samples sampleRate = transcribeReady env p ctx samples sampleRate := by
  unfold WhisperEngine.transcribe
  rw [if_neg (by rw [isReady_of e p ctx hp hr hc]; simp)]
  simp only [hp, hc]

theorem buildParams_detect_language {Ctx Sample : Type} (env : Env Ctx Sample)
    (options : WhisperEngineOptions) : (buildParams env options).detect_language = false := by
  unfold buildParams
  split <;> rfl

theorem transcribeReady_of_status_ne {Ctx Sample : Type} (env : Env Ctx Sample) (p : Impl Ctx)
    (ctx : Ctx) (samples : List Sample) (sampleRate : Nat)
    (h : (env.whisper_full ctx (buildParams env p.options)
        (audioData env samples sampleRate)
        (toInt32 (audioData env samples sampleRate).length)).1 ≠ 0) :
    transcribeReady env p ctx samples sampleRate =
      ⟨Except.error ("Whisper transcription failed with code: ".toList ++
          to_string (env.whisper_full ctx (buildParams env p.options)
            (audioData env samples sampleRate)
            (toInt32 (audioData env samples sampleRate).length)).1),
        ⟨some { p with ctx := some (env.whisper_full ctx (buildParams env p.options)
            (audioData env samples sampleRate)
            (toInt32 (audioData env samples sampleRate).length)).2 }⟩,
        [EngineCall.full ctx (buildParams env p.options)
          (toInt32 (audioData env samples sampleRate).length)]⟩ := by
  unfold transcribeReady
  simp only [h, ne_eq, not_false_eq_true, if_true]

theorem transcribeReady_of_status_eq {Ctx Sample : Type} (env : Env Ctx Sample) (p : Impl Ctx)
    (ctx : Ctx) (samples : List Sample) (sampleRate : Nat)
    (h : (env.whisper_full ctx (buildParams env p.options)
        (audioData env samples sampleRate)
        (toInt32 (audioData env samples sampleRate).length)).1 = 0) :
    transcribeReady env p ctx samples sampleRate =
      ⟨Except.ok
          { text := trimText (collectSegments env (env.whisper_full ctx
              (buildParams env p.options) (audioData env samples sampleRate)
              (toInt32 (audioData env samples sampleRate).length)).2).2
            language := p.options.language
            durationMs := env.elapsedMs
            segments := (collectSegments env (env.whisper_full ctx
              (buildParams env p.options) (audioData env samples sampleRate)
              (toInt32 (audioData env samples sampleRate).length)).2).1 },
        ⟨some { p with
          ctx := some (env.whisper_full ctx (buildParams env p.options)
            (audioData env samples sampleRate)
            (toInt32 (audioData env samples sampleRate).length)).2
          detectedLanguage := p.options.language }⟩,
        [EngineCall.full ctx (buildParams env p.options)
          (toInt32 (audioData env samples sampleRate).length)]⟩ := by
  unfold transcribeReady
  simp only [h, ne_eq, not_true_eq_false, if_false, buildParams_detect_language,
    Bool.false_eq_true]

theorem buildParams_language {Ctx Sample : Type} (env : Env Ctx Sample)
    (options : WhisperEngineOptions) :
    (buildParams env options).language =
      if options.language = "auto".toList then "en".toList else options.language := by
  unfold buildParams
  by_cases h : options.language = "auto".toList
  · simp only [if_pos h]
  · simp only [if_neg h]

theorem buildParams_n_threads {Ctx Sample : Type} (env : Env Ctx Sample)
    (options : WhisperEngineOptions) :
    (buildParams env options).n_threads =
      if options.threads > 0 then options.threads else 4 := by
  unfold buildParams
  split <;> rfl

/-! ## Full-text reconstruction -/

theorem joinSegments_cons (a : CppString) (l : List CppString) :
    joinSegments (a :: l) = a ++ joinTail l := by
  cases l with
  | nil => simp [joinSegments, joinTail]
  | cons b rest => simp [joinSegments, joinTail]

theorem appendSegmentText_nil (acc : CppString) : appendSegmentText acc [] = acc := by
  simp [appendSegmentText]

theorem appendSegmentText_of_ne (acc t : CppString) (hacc : acc ≠ []) (ht : t ≠ []) :
    appendSegmentText acc t = acc ++ separatorBefore t ++ t := by
  unfold appendSegmentText separatorBefore
  by_cases h : t.head? = some SPACE
  · simp [h, hacc, ht]
  · simp [h, hacc, ht]

theorem foldl_appendSegmentText_of_ne (ts : List CppString) :
    ∀ acc : CppString, acc ≠ [] →
      ts.foldl appendSegmentText acc = acc ++ joinTail (ts.filter (· ≠ [])) := by
  induction ts with
  | nil => intro acc _; simp [joinTail]
  | cons t ts ih =>
    intro acc hacc
    by_cases ht : t = []
    · subst ht
      simp only [List.foldl_cons, appendSegmentText_nil]
      rw [ih acc hacc]
      simp
    · simp only [List.foldl_cons]
      rw [appendSegmentText_of_ne acc t hacc ht, ih _ (by simp [ht])]
      have hf : (t :: ts).filter (· ≠ []) = t :: ts.filter (· ≠ []) := by
        simp [List.filter_cons, ht]
      rw [hf]
      have hj : joinTail (t :: ts.filter (· ≠ [])) =
          separatorBefore t ++ (t ++ joinTail (ts.filter (· ≠ []))) := by
        rw [← joinSegments_cons]; rfl
      rw [hj]
      simp only [List.append_assoc]

theorem buildFullText_eq (ts : List CppString) :
    buildFullText ts = joinSegments (ts.filter (· ≠ [])) := by
  unfold buildFullText
  induction ts with
  | nil => simp [joinSegments]
  | cons t ts ih =>
    by_cases ht : t = []
    · subst ht
      simp only [List.foldl_cons, appendSegmentText_nil]
      rw [ih]
      simp
    · have h0 : appendSegmentText [] t = t := by simp [appendSegmentText]
      have hf : (t :: ts).filter (· ≠ []) = t :: ts.filter (· ≠ []) := by
        simp [List.filter_cons, ht]
      simp only [List.foldl_cons]
      rw [h0, foldl_appendSegmentText_of_ne ts t ht, hf, joinSegments_cons]

theorem foldl_collectStep_snd {Ctx Sample : Type} (env : Env Ctx Sample) (ctx : Ctx)
    (is : List Nat) :
    ∀ acc : List TranscriptionSegment × CppString,
      (is.foldl (collectStep env ctx) acc).2 =
        (is.map fun (i : Nat) =>
          match env.whisper_full_get_segment_text ctx (i : Int) with
          | some t => t
          | none => []).foldl appendSegmentText acc.2 := by
  induction is with
  | nil => intro acc; rfl
  | cons i is ih =>
    intro acc
    simp only [List.foldl_cons, List.map_cons]
    rw [ih]
    rfl

theorem collectSegments_snd {Ctx Sample : Type} (env : Env Ctx Sample) (ctx : Ctx) :
    (collectSegments env ctx).2 = buildFullText (segmentTexts env ctx) := by
  unfold collectSegments buildFullText segmentTexts
  rw [foldl_collectStep_snd]

/-- The text of a returned result is the trimmed `fullText` built from the segment texts of
the context the decode call left behind. -/
theorem transcribeReady_text {Ctx Sample : Type} (env : Env Ctx Sample) (p : Impl Ctx)
    (ctx : Ctx) (samples : List Sample) (sampleRate : Nat) (r : TranscriptionResult)
    (h : (transcribeReady env p ctx samples sampleRate).result = Except.ok r) :
    ∃ c2, (transcribeReady env p ctx samples sampleRate).engine.pImpl.bind Impl.ctx = some c2 ∧
      r.text = trimText (buildFullText (segmentTexts env c2)) := by
  by_cases hs : (env.whisper_full ctx (buildParams env p.options)
      (audioData env samples sampleRate)
      (toInt32 (audioData env samples sampleRate).length)).1 = 0
  · rw [transcribeReady_of_status_eq env p ctx samples sampleRate hs] at h ⊢
    refine ⟨_, rfl, ?_⟩
    simp only [Except.ok.injEq] at h
    rw [← h, collectSegments_snd]
  · rw [transcribeReady_of_status_ne env p ctx samples sampleRate hs] at h
    cases h

/-- Claim C1: the text built by the loop of `transcribe` before trimming is the
concatenation of the non-empty segment texts in their order, with one space between two
neighbours when the later one does not begin with a space and nothing when it does; empty
segments contribute nothing; the text of a returned result is the trimmed form of it.  Two
segments "hello", "world" and "hello", " world" both give "hello world". -/
theorem fullText_reconstruction :
    (∀ texts : List CppString,
      buildFullText texts = joinSegments (texts.filter (· ≠ []))) ∧
    (∀ (Ctx Sample : Type) (env : Env Ctx Sample) (ctx : Ctx),
      (collectSegments env ctx).2 =
        joinSegments ((segmentTexts env ctx).filter (· ≠ []))) ∧
    (∀ (Ctx Sample : Type) (env : Env Ctx Sample) (p : Impl Ctx) (ctx : Ctx)
      (samples : List Sample) (sampleRate : Nat) (r : TranscriptionResult),
      (transcribeReady env p ctx samples sampleRate).result = Except.ok r →
      ∃ c2, (transcribeReady env p ctx samples sampleRate).engine.pImpl.bind Impl.ctx =
          some c2 ∧
        r.text = trimText (joinSegments ((segmentTexts env c2).filter (· ≠ [])))) ∧
    buildFullText ["hello".toList, "world".toList] = "hello world".toList ∧
    buildFullText ["hello".toList, " world".toList] = "hello world".toList := by
  refine ⟨buildFullText_eq, ?_, ?_, by decide, by decide⟩
  · intro Ctx Sample env ctx
    rw [collectSegments_snd, buildFullText_eq]
  · intro Ctx Sample env p ctx samples sampleRate r h
    obtain ⟨c2, h1, h2⟩ := transcribeReady_text env p ctx samples sampleRate r h
    exact ⟨c2, h1, by rw [h2, buildFullText_eq]⟩

/-- Witness for `fullText_reconstruction`: the texts "a", "" and "b" give the join of "a"
and "b". -/
theorem fullText_reconstruction_witness :
    buildFullText ["a".toList, [], "b".toList] = joinSegments ["a".toList, "b".toList] :=
  fullText_reconstruction.1 ["a".toList, [], "b".toList]

/-! ## Trimming -/

theorem find_first_not_of_eq_none (chars : CppString) (s : CppString) :
    find_first_not_of s chars = none ↔ ∀ c ∈ s, c ∈ chars := by
  induction s with
  | nil => simp [find_first_not_of]
  | cons a s ih =>
    by_cases ha : a ∈ chars
    · simp [find_first_not_of, ha, ih]
    · simp [find_first_not_of, ha]

theorem find_last_not_of_eq_none (chars : CppString) (s : CppString) :
    find_last_not_of s chars = none ↔ ∀ c ∈ s, c ∈ chars := by
  induction s with
  | nil => simp [find_last_not_of]
  | cons a s ih =>
    cases hl : find_last_not_of s chars with
    | none =>
      have hs := ih.mp hl
      by_cases ha : a ∈ chars
      · simp only [find_last_not_of, hl, ha, if_true, true_iff]
        intro c hc
        rcases List.mem_cons.mp hc with hc | hc
        · exact hc ▸ ha
        · exact hs c hc
      · simp [find_last_not_of, hl, ha]
    | some j =>
      have hs : ¬ ∀ c ∈ s, c ∈ chars := fun h => by
        rw [ih.mpr h] at hl
        cases hl
      simp only [find_last_not_of, hl, List.mem_cons, forall_eq_or_imp]
      constructor
      · intro h; cases h
      · intro h; exact absurd h.2 hs

theorem find_first_not_of_eq_some (chars : CppString) (s : CppString) :
    ∀ i, find_first_not_of s chars = some i →
      ∃ p c r, s = p ++ c :: r ∧ p.length = i ∧ (∀ x ∈ p, x ∈ chars) ∧ c ∉ chars := by
  induction s with
  | nil => intro i h; simp [find_first_not_of] at h
  | cons a s ih =>
    intro i h
    by_cases ha : a ∈ chars
    · simp only [find_first_not_of, ha, if_true, Option.map_eq_some'] at h
      obtain ⟨k, hk, hki⟩ := h
      obtain ⟨p, c, r, hs, hp, hall, hc⟩ := ih k hk
      refine ⟨a :: p, c, r, by simp [hs], by simp [hp, hki], ?_, hc⟩
      intro x hx
      rcases List.mem_cons.mp hx with hx | hx
      · exact hx ▸ ha
      · exact hall x hx
    · simp only [find_first_not_of, ha, if_false, Option.some.injEq] at h
      exact ⟨[], a, s, by simp, by simp [h], by simp, ha⟩

theorem find_last_not_of_eq_some (chars : CppString) (s : CppString) :
    ∀ j, find_last_not_of s chars = some j →
      ∃ p c q, s = p ++ c :: q ∧ p.length = j ∧ c ∉ chars ∧ (∀ x ∈ q, x ∈ chars) := by
  induction s with
  | nil => intro j h; simp [find_last_not_of] at h
  | cons a s ih =>
    intro j h
    cases hl : find_last_not_of s chars with
    | none =>
      have hs := (find_last_not_of_eq_none chars s).mp hl
      by_cases ha : a ∈ chars
      · simp [find_last_not_of, hl, ha] at h
      · simp only [find_last_not_of, hl, ha, if_false, Option.some.injEq] at h
        exact ⟨[], a, s, by simp, by simp [h], ha, hs⟩
    | some k =>
      simp only [find_last_not_of, hl, Option.some.injEq] at h
      obtain ⟨p, c, q, hs, hp, hc, hall⟩ := ih k hl
      exact ⟨a :: p, c, q, by simp [hs], by simp [hp, h], hc, hall⟩

/-- The shape of a string around its first and last characters outside `chars`. -/
theorem trim_decomposition (chars s : CppString) (i j : Nat)
    (hi : find_first_not_of s chars = some i) (hj : find_last_not_of s chars = some j) :
    ∃ p t q, s = p ++ t ++ q ∧ p.length = i ∧ t.length = j - i + 1 ∧
      (∀ x ∈ p, x ∈ chars) ∧ (∀ x ∈ q, x ∈ chars) ∧
      (∃ c, t.head? = some c ∧ c ∉ chars) ∧ (∃ c, t.getLast? = some c ∧ c ∉ chars) := by
  obtain ⟨p1, c1, r1, hs1, hp1, hall1, hc1⟩ := find_first_not_of_eq_some chars s i hi
  obtain ⟨p2, c2, q2, hs2, hp2, hc2, hall2⟩ := find_last_not_of_eq_some chars s j hj
  have heq : p1 ++ c1 :: r1 = p2 ++ c2 :: q2 := by rw [← hs1, ← hs2]
  rcases List.append_eq_append_iff.mp heq with ⟨a, ha1, ha2⟩ | ⟨a, ha1, ha2⟩
  · -- p2 = p1 ++ a
    cases a with
    | nil =>
      simp only [List.nil_append, List.cons.injEq] at ha2
      obtain ⟨hcc, hrq⟩ := ha2
      simp only [List.append_nil] at ha1
      refine ⟨p1, [c1], q2, ?_, hp1, ?_, hall1, hall2, ⟨c1, rfl, hc1⟩, ⟨c1, rfl, hc1⟩⟩
      · rw [hs1, hrq]; simp
      · have : i = j := by rw [← hp1, ← hp2, ha1]
        simp [this]
    | cons b m =>
      simp only [List.cons_append, List.cons.injEq] at ha2
      obtain ⟨hb, hr1⟩ := ha2
      refine ⟨p1, c1 :: (m ++ [c2]), q2, ?_, hp1, ?_, hall1, hall2, ⟨c1, rfl, hc1⟩,
        ⟨c2, ?_, hc2⟩⟩
      · rw [hs1, hr1]; simp
      · have : j = i + (m.length + 1) := by
          rw [← hp1, ← hp2, ha1]; simp
        simp [this]
      · rw [← List.cons_append, List.getLast?_append]; simp
  · -- p1 = p2 ++ a
    cases a with
    | nil =>
      simp only [List.nil_append, List.cons.injEq] at ha2
      obtain ⟨hcc, hrq⟩ := ha2
      simp only [List.append_nil] at ha1
      refine ⟨p1, [c1], q2, ?_, hp1, ?_, hall1, hall2, ⟨c1, rfl, hc1⟩, ⟨c1, rfl, hc1⟩⟩
      · rw [hs1, ← hrq]; simp
      · have : i = j := by rw [← hp1, ← hp2, ha1]
        simp [this]
    | cons b m =>
      simp only [List.cons_append, List.cons.injEq] at ha2
      obtain ⟨_, hq2⟩ := ha2
      exact absurd (hall2 c1 (by rw [hq2]; simp)) hc1

theorem trimText_of_all (s : CppString) (h : ∀ c ∈ s, c ∈ TRIM_CHARS) : trimText s = [] := by
  unfold trimText
  rw [(find_first_not_of_eq_none TRIM_CHARS s).mpr h]

theorem trimText_spec (s : CppString) (hs : ¬ ∀ c ∈ s, c ∈ TRIM_CHARS) :
    ∃ p q, s = p ++ trimText s ++ q ∧
      (∀ x ∈ p, x ∈ TRIM_CHARS) ∧ (∀ x ∈ q, x ∈ TRIM_CHARS) ∧
      (∃ c, (trimText s).head? = some c ∧ c ∉ TRIM_CHARS) ∧
      (∃ c, (trimText s).getLast? = some c ∧ c ∉ TRIM_CHARS) := by
  cases hi : find_first_not_of s TRIM_CHARS with
  | none => exact absurd ((find_first_not_of_eq_none TRIM_CHARS s).mp hi) hs
  | some i =>
    cases hj : find_last_not_of s TRIM_CHARS with
    | none => exact absurd ((find_last_not_of_eq_none TRIM_CHARS s).mp hj) hs
    | some j =>
      obtain ⟨p, t, q, hdec, hp, ht, hallp, hallq, hhead, hlast⟩ :=
        trim_decomposition TRIM_CHARS s i j hi hj
      have htrim : trimText s = t := by
        unfold trimText substr
        rw [hi, hj]
        simp only
        rw [hdec, List.append_assoc, List.drop_left' hp, ← ht, List.take_left' rfl]
      rw [htrim]
      exact ⟨p, q, hdec, hallp, hallq, hhead, hlast⟩

/-- Claim C2: the result text `t` of a concatenation `s` satisfies `s = p ++ t ++ q` with `p`
and `q` made of the four characters space, tab, newline, carriage return only; `t` neither
begins nor ends with one of them; and `t` is empty exactly when `s` is empty or made of
those characters only; `s` is the `fullText` of the loop and `t` the text of the returned
result.  The single segment "  hello  " gives "hello". -/
theorem trimText_correct (s : CppString) :
    (∃ p q, s = p ++ trimText s ++ q ∧
      (∀ c ∈ p, c ∈ TRIM_CHARS) ∧ (∀ c ∈ q, c ∈ TRIM_CHARS)) ∧
    (∀ c, (trimText s).head? = some c → c ∉ TRIM_CHARS) ∧
    (∀ c, (trimText s).getLast? = some c → c ∉ TRIM_CHARS) ∧
    (trimText s = [] ↔ (s = [] ∨ ∀ c ∈ s, c ∈ TRIM_CHARS)) ∧
    (∀ c, c ∈ TRIM_CHARS ↔
      (c = Char.ofNat 32 ∨ c = Char.ofNat 9 ∨ c = Char.ofNat 10 ∨ c = Char.ofNat 13)) ∧
    (∀ (Ctx Sample : Type) (env : Env Ctx Sample) (p : Impl Ctx) (ctx : Ctx)
      (samples : List Sample) (sampleRate : Nat) (r : TranscriptionResult),
      (transcribeReady env p ctx samples sampleRate).result = Except.ok r →
      ∃ c2, (transcribeReady env p ctx samples sampleRate).engine.pImpl.bind Impl.ctx =
          some c2 ∧
        r.text = trimText (buildFullText (segmentTexts env c2))) ∧
    trimText (buildFullText ["  hello  ".toList]) = "hello".toList := by
  have hlink : ∀ (Ctx Sample : Type) (env : Env Ctx Sample) (p : Impl Ctx) (ctx : Ctx)
      (samples : List Sample) (sampleRate : Nat) (r : TranscriptionResult),
      (transcribeReady env p ctx samples sampleRate).result = Except.ok r →
      ∃ c2, (transcribeReady env p ctx samples sampleRate).engine.pImpl.bind Impl.ctx =
          some c2 ∧
        r.text = trimText (buildFullText (segmentTexts env c2)) :=
    fun _ _ env p ctx samples sampleRate r h =>
      transcribeReady_text env p ctx samples sampleRate r h
  have hmem : ∀ c, c ∈ TRIM_CHARS ↔
      (c = Char.ofNat 32 ∨ c = Char.ofNat 9 ∨ c = Char.ofNat 10 ∨ c = Char.ofNat 13) := by
    intro c; simp [TRIM_CHARS]
  by_cases hs : ∀ c ∈ s, c ∈ TRIM_CHARS
  · have ht := trimText_of_all s hs
    refine ⟨⟨s, [], by simp [ht], hs, by simp⟩, ?_, ?_, ?_, hmem, hlink, by decide⟩
    · intro c hc; simp [ht] at hc
    · intro c hc; simp [ht] at hc
    · simp only [ht, true_iff]
      exact Or.inr hs
  · obtain ⟨p, q, hdec, hp, hq, ⟨c1, hh, hc1⟩, ⟨c2, hl, hc2⟩⟩ := trimText_spec s hs
    refine ⟨⟨p, q, hdec, hp, hq⟩, ?_, ?_, ?_, hmem, hlink, by decide⟩
    · intro c hc
      rw [hh] at hc
      cases hc
      exact hc1
    · intro c hc
      rw [hl] at hc
      cases hc
      exact hc2
    · constructor
      · intro ht
        rw [ht] at hh
        simp at hh
      · rintro (h | h)
        · subst h; exact absurd (by simp) hs
        · exact absurd h hs

/-- Witness for `trimText_correct`: the text " a b" followed by a newline is trimmed to
"a b", whose first character is not one of the four. -/
theorem trimText_correct_witness :
    trimText [Char.ofNat 32, Char.ofNat 97, Char.ofNat 32, Char.ofNat 98, Char.ofNat 10] =
        [Char.ofNat 97, Char.ofNat 32, Char.ofNat 98] ∧
      Char.ofNat 97 ∉ TRIM_CHARS :=
  ⟨by decide,
    (trimText_correct
      [Char.ofNat 32, Char.ofNat 97, Char.ofNat 32, Char.ofNat 98, Char.ofNat 10]).2.1
      (Char.ofNat 97) (by decide)⟩

/-! ## Decoding parameters -/

/-- Claim C9: the parameters `transcribe` passes to the engine have language "en" when the
configured language is "auto" and the configured code otherwise, language detection
disabled in both cases, and thread count `N` for a configured `N > 0` and 4 otherwise; with
the options left at their defaults this gives "en" and 4.  A ready engine passes exactly
these parameters to the decode call. -/
theorem decoding_params_defaulting (Ctx Sample : Type) (env : Env Ctx Sample) :
    (∀ options : WhisperEngineOptions,
      (options.language = "auto".toList →
        (buildParams env options).language = "en".toList) ∧
      (options.language ≠ "auto".toList →
        (buildParams env options).language = options.language) ∧
      (buildParams env options).detect_language = false ∧
      (0 < options.threads → (buildParams env options).n_threads = options.threads) ∧
      (options.threads ≤ 0 → (buildParams env options).n_threads = 4)) ∧
    (∀ modelPath : CppString,
      (buildParams env { modelPath := modelPath }).language = "en".toList ∧
      (buildParams env { modelPath := modelPath }).n_threads = 4) ∧
    (∀ (e : WhisperEngine Ctx) (p : Impl Ctx) (ctx : Ctx) (samples : List Sample)
      (sampleRate : Nat), e.pImpl = some p → p.ready = true → p.ctx = some ctx →
      (e.transcribe env samples sampleRate).calls =
        [EngineCall.full ctx (buildParams env p.options)
          (toInt32 (audioData env samples sampleRate).length)]) := by
  refine ⟨?_, ?_, ?_⟩
  · intro options
    refine ⟨?_, ?_, buildParams_detect_language env options, ?_, ?_⟩
    · intro h; rw [buildParams_language, if_pos h]
    · intro h; rw [buildParams_language, if_neg h]
    · intro h; rw [buildParams_n_threads, if_pos h]
    · intro h; rw [buildParams_n_threads, if_neg (not_lt.mpr h)]
  · intro modelPath
    constructor
    · rw [buildParams_language, if_pos rfl]
    · rw [buildParams_n_threads]; rfl
  · intro e p ctx samples sampleRate hp hr hc
    rw [transcribe_ready env e samples sampleRate p ctx hp hr hc]
    unfold transcribeReady
    simp only
    split <;> rfl

/-- Witness for `decoding_params_defaulting`: the demonstration engine configured with
language "de" and 8 threads passes "de" and 8. -/
theorem decoding_params_defaulting_witness :
    (buildParams demoEnv
        { modelPath := [], language := "de".toList, threads := 8 }).language = "de".toList ∧
      (buildParams demoEnv
        { modelPath := [], language := "de".toList, threads := 8 }).n_threads = 8 :=
  ⟨((decoding_params_defaulting Nat Nat demoEnv).1
      { modelPath := [], language := "de".toList, threads := 8 }).2.1 (by decide),
    ((decoding_params_defaulting Nat Nat demoEnv).1
      { modelPath := [], language := "de".toList, threads := 8 }).2.2.2.1 (by decide)⟩

/-! ## The language of the result -/

/-- On success the language of the result, and the stored detected language, is the
configured language string as it stands, while the decode call is given "en" in place of
"auto". -/
theorem result_language_eq_configured {Ctx Sample : Type} (env : Env Ctx Sample) (p : Impl Ctx)
    (ctx : Ctx) (samples : List Sample) (sampleRate : Nat) (r : TranscriptionResult)
    (h : (transcribeReady env p ctx samples sampleRate).result = Except.ok r) :
    r.language = p.options.language ∧
      (transcribeReady env p ctx samples sampleRate).engine.getDetectedLanguage =
        p.options.language := by
  by_cases hs : (env.whisper_full ctx (buildParams env p.options)
      (audioData env samples sampleRate)
      (toInt32 (audioData env samples sampleRate).length)).1 = 0
  · rw [transcribeReady_of_status_eq env p ctx samples sampleRate hs] at h ⊢
    simp only [Except.ok.injEq] at h
    rw [← h]
    exact ⟨rfl, rfl⟩
  · rw [transcribeReady_of_status_ne env p ctx samples sampleRate hs] at h
    cases h

/-- Claim C5, the code at the failing input: with the language left at its default "auto",
a successful `transcribe` of the demonstration engine passes the language "en" to the
decode call but returns "auto" as the language of the result and stores "auto" as the
detected language. -/
theorem result_language_auto :
    (demoEngine.transcribe demoEnv [1, 2] 16000).calls =
        [EngineCall.full 0 (buildParams demoEnv { modelPath := "model.bin".toList }) 2] ∧
      (buildParams demoEnv { modelPath := "model.bin".toList }).language = "en".toList ∧
      (demoEngine.transcribe demoEnv [1, 2] 16000).result.toOption.map
        TranscriptionResult.language = some "auto".toList ∧
      (demoEngine.transcribe demoEnv [1, 2] 16000).engine.getDetectedLanguage =
        "auto".toList := by
  decide

/-! ## Failure conditions of `transcribe` -/

theorem foldl_collectStep_fst {Ctx Sample : Type} (env : Env Ctx Sample) (ctx : Ctx)
    (is : List Nat) :
    ∀ acc : List TranscriptionSegment × CppString,
      (is.foldl (collectStep env ctx) acc).1 =
        acc.1 ++ is.map fun (i : Nat) =>
          toResultSegment (env.whisper_full_get_segment_t0 ctx (i : Int),
            env.whisper_full_get_segment_t1 ctx (i : Int),
            env.whisper_full_get_segment_text ctx (i : Int)) := by
  induction is with
  | nil => intro acc; simp
  | cons i is ih =>
    intro acc
    simp only [List.foldl_cons, List.map_cons]
    rw [ih]
    simp only [collectStep, toResultSegment, List.append_assoc, List.singleton_append,
      mul_comm]

theorem collectSegments_fst {Ctx Sample : Type} (env : Env Ctx Sample) (ctx : Ctx) :
    (collectSegments env ctx).1 = (engineSegments env ctx).map toResultSegment := by
  unfold collectSegments engineSegments
  rw [foldl_collectStep_fst]
  simp [List.map_map, Function.comp_def]

theorem pairwise_le_map_ten (l : List Int) (h : l.Pairwise (· ≤ ·)) :
    (l.map (10 * ·)).Pairwise (· ≤ ·) := by
  rw [List.pairwise_map]
  exact h.imp (fun hab => by omega)

theorem flatMap_times_eq (es : List (Int × Int × Option CppString)) :
    (es.map toResultSegment).flatMap (fun s => [s.startMs, s.endMs]) =
      (es.flatMap (fun s => [s.1, s.2.1])).map (10 * ·) := by
  induction es with
  | nil => rfl
  | cons a es ih =>
    simp only [List.map_cons, List.flatMap_cons, List.map_append, ih]
    rfl

/-- Claim C10: the segments of the result are the engine's segments in the same number and
order, each with `startMs = 10 * t0`, `endMs = 10 * t1`, the engine's text (empty for a null
pointer) and confidence 1; a successful `transcribe` returns exactly these; and when the
engine's tick values are non-negative, respectively non-decreasing, so are the resulting
millisecond values. -/
theorem segment_assembly (Ctx Sample : Type) (env : Env Ctx Sample) (ctx : Ctx) :
    (collectSegments env ctx).1 = (engineSegments env ctx).map toResultSegment ∧
    (collectSegments env ctx).1.length = (engineSegments env ctx).length ∧
    (∀ s : Int × Int × Option CppString,
      (toResultSegment s).startMs = 10 * s.1 ∧ (toResultSegment s).endMs = 10 * s.2.1 ∧
      (toResultSegment s).text = s.2.2.getD [] ∧ (toResultSegment s).confidence = 1) ∧
    (∀ (p : Impl Ctx) (c : Ctx) (samples : List Sample) (sampleRate : Nat) (r : TranscriptionResult),
      (transcribeReady env p c samples sampleRate).result = Except.ok r →
      ∃ c2, (transcribeReady env p c samples sampleRate).engine.pImpl.bind Impl.ctx = some c2 ∧
        r.segments = (engineSegments env c2).map toResultSegment) ∧
    ((∀ s ∈ engineSegments env ctx, 0 ≤ s.1 ∧ 0 ≤ s.2.1) →
      ∀ s ∈ (collectSegments env ctx).1, 0 ≤ s.startMs ∧ 0 ≤ s.endMs) ∧
    (((engineSegments env ctx).flatMap (fun s => [s.1, s.2.1])).Pairwise (· ≤ ·) →
      ((collectSegments env ctx).1.flatMap (fun s => [s.startMs, s.endMs])).Pairwise (· ≤ ·)) ∧
    (((engineSegments env ctx).map (fun s => s.1)).Pairwise (· ≤ ·) →
      ((collectSegments env ctx).1.map (fun s => s.startMs)).Pairwise (· ≤ ·)) ∧
    (((engineSegments env ctx).map (fun s => s.2.1)).Pairwise (· ≤ ·) →
      ((collectSegments env ctx).1.map (fun s => s.endMs)).Pairwise (· ≤ ·)) := by
  have hseg := collectSegments_fst env ctx
  refine ⟨hseg, by rw [hseg, List.length_map], ?_, ?_, ?_, ?_, ?_, ?_⟩
  · intro s
    refine ⟨rfl, rfl, ?_, rfl⟩
    unfold toResultSegment
    cases s.2.2 <;> rfl
  · intro p c samples sampleRate r hr
    by_cases hs : (env.whisper_full c (buildParams env p.options)
        (audioData env samples sampleRate)
        (toInt32 (audioData env samples sampleRate).length)).1 = 0
    · rw [transcribeReady_of_status_eq env p c samples sampleRate hs] at hr ⊢
      refine ⟨_, rfl, ?_⟩
      simp only [Except.ok.injEq] at hr
      rw [← hr, collectSegments_fst]
    · rw [transcribeReady_of_status_ne env p c samples sampleRate hs] at hr
      cases hr
  · intro h s hs
    rw [hseg] at hs
    obtain ⟨a, ha, rfl⟩ := List.mem_map.mp hs
    have := h a ha
    simp only [toResultSegment]
    omega
  · intro h
    rw [hseg, flatMap_times_eq]
    exact pairwise_le_map_ten _ h
  · intro h
    rw [hseg, List.map_map]
    have := pairwise_le_map_ten _ h
    rw [List.map_map] at this
    exact this
  · intro h
    rw [hseg, List.map_map]
    have := pairwise_le_map_ten _ h
    rw [List.map_map] at this
    exact this

/-- Witness for `segment_assembly`: the two segments of the demonstration engine, with
ticks 0, 150 and 150, 300, come out as 0, 1500 and 1500, 3000 milliseconds. -/
theorem segment_assembly_witness :
    (collectSegments demoEnv 0).1 =
        [⟨0, 1500, "hello".toList, 1⟩, ⟨1500, 3000, " world".toList, 1⟩] ∧
      ((collectSegments demoEnv 0).1.flatMap (fun s => [s.startMs, s.endMs])).Pairwise
        (· ≤ ·) :=
  ⟨by decide, (segment_assembly Nat Nat demoEnv 0).2.2.2.2.2.1 (by decide)⟩

/-! ## Construction and the registry -/

theorem construct_of_load_failure {Ctx Sample : Type} (env : Env Ctx Sample)
    (options : WhisperEngineOptions)
    (h : env.whisper_init_from_file_with_params options.modelPath = none) :
    WhisperEngine.construct env options =
      (Except.error ("Failed to load Whisper model from: ".toList ++ options.modelPath),
        [EngineCall.log_set, EngineCall.init_from_file options.modelPath]) := by
  unfold WhisperEngine.construct
  rw [h]

/-- Claim C6, the counterexample: the registry holds a ready engine, `Initialize` is
called with a model path that fails to load and fails with an error, and `IsInitialized`
still returns true afterwards. -/
theorem initialize_failure_keeps_ready_engine :
    IsInitialized demoRegistry = true ∧
      demoEnv.whisper_init_from_file_with_params "missing.bin".toList = none ∧
      (Initialize demoEnv demoRegistry (some badOptions)).result =
        Except.error (JsError.error
          "Failed to initialize Whisper: Failed to load Whisper model from: missing.bin".toList) ∧
      IsInitialized (Initialize demoEnv demoRegistry (some badOptions)).registry = true :=
  ⟨by decide, by decide, rfl, by decide⟩

/-- Claim C6, as amended: when `Initialize` is called with a model path the external engine
fails to load, it fails with an error whose message names the cause, the registry is left as
it was, and so `IsInitialized` returns afterwards what it returned before: false when the
registry held no ready engine. -/
theorem initialize_failure_atomic (Ctx Sample : Type) (env : Env Ctx Sample)
    (g_engine : Option (WhisperEngine Ctx)) (options : JsOptions) (modelPath : CppString)
    (hpath : options.modelPath = some modelPath)
    (hload : env.whisper_init_from_file_with_params modelPath = none) :
    (Initialize env g_engine (some options)).result =
        Except.error (JsError.error ("Failed to initialize Whisper: ".toList ++
          ("Failed to load Whisper model from: ".toList ++ modelPath))) ∧
      (Initialize env g_engine (some options)).registry = g_engine ∧
      IsInitialized (Initialize env g_engine (some options)).registry =
        IsInitialized g_engine ∧
      (IsInitialized g_engine = false →
        IsInitialized (Initialize env g_engine (some options)).registry = false) := by
  have hreg : (Initialize env g_engine (some options)).registry = g_engine ∧
      (Initialize env g_engine (some options)).result =
        Except.error (JsError.error ("Failed to initialize Whisper: ".toList ++
          ("Failed to load Whisper model from: ".toList ++ modelPath))) := by
    unfold Initialize
    simp only [hpath]
    rw [construct_of_load_failure env _ (by
      cases options.language <;> cases options.threads <;> exact hload)]
    constructor
    · rfl
    · cases options.language <;> cases options.threads <;> rfl
  refine ⟨hreg.2, hreg.1, by rw [hreg.1], ?_⟩
  intro h
  rw [hreg.1]
  exact h

/-- Witness for `initialize_failure_atomic`: on the empty registry the failing call leaves
`IsInitialized` false. -/
theorem initialize_failure_atomic_witness :
    IsInitialized (Initialize demoEnv none (some badOptions)).registry = false :=
  (initialize_failure_atomic Nat Nat demoEnv none badOptions "missing.bin".toList rfl
    (by decide)).2.2.2 (by decide)

/-! ## Cleanup -/

theorem cleanup_of_no_impl {Ctx : Type} (e : WhisperEngine Ctx) (hp : e.pImpl = none) :
    e.cleanup = (e, []) := by
  unfold WhisperEngine.cleanup
  rw [hp]

theorem cleanup_of_no_ctx {Ctx : Type} (e : WhisperEngine Ctx) (p : Impl Ctx)
    (hp : e.pImpl = some p) (hx : p.ctx = none) :
    e.cleanup = (⟨some ⟨none, p.options, p.detectedLanguage, false⟩⟩, []) := by
  unfold WhisperEngine.cleanup
  rw [hp]
  simp only [hx]

theorem cleanup_of_ctx {Ctx : Type} (e : WhisperEngine Ctx) (p : Impl Ctx) (c : Ctx)
    (hp : e.pImpl = some p) (hx : p.ctx = some c) :
    e.cleanup =
      (⟨some ⟨none, p.options, p.detectedLanguage, false⟩⟩, [EngineCall.free c]) := by
  unfold WhisperEngine.cleanup
  rw [hp]
  simp only [hx]

theorem cleanup_facts {Ctx : Type} (e : WhisperEngine Ctx) :
    e.cleanup.1.isReady = false ∧ e.cleanup.1.cleanup = (e.cleanup.1, []) ∧
      e.cleanup.1.destroy = [] ∧ e.cleanup.2.length ≤ 1 := by
  cases hp : e.pImpl with
  | none =>
    rw [cleanup_of_no_impl e hp]
    refine ⟨?_, cleanup_of_no_impl e hp, ?_, Nat.zero_le _⟩
    · unfold WhisperEngine.isReady; rw [hp]
    · unfold WhisperEngine.destroy
      rw [cleanup_of_no_impl e hp]
      simp only [hp, List.append_nil]
  | some p =>
    cases hx : p.ctx with
    | none =>
      rw [cleanup_of_no_ctx e p hp hx]
      exact ⟨rfl, rfl, rfl, Nat.zero_le _⟩
    | some c =>
      rw [cleanup_of_ctx e p c hp hx]
      exact ⟨rfl, rfl, rfl, Nat.le_refl _⟩

/-- Claim C7: `cleanup` on any engine state leaves `isReady` false; a second `cleanup` right
after the first changes nothing and makes no call, so the two together release the context
at most once; `Cleanup` on the registry, also on the empty one, leaves `IsInitialized`
false, and a second `Cleanup` changes nothing and makes no call.  Both are total: they have
no failure outcome. -/
theorem cleanup_idempotent (Ctx : Type) :
    (∀ e : WhisperEngine Ctx,
      e.cleanup.1.isReady = false ∧
      e.cleanup.1.cleanup = (e.cleanup.1, []) ∧
      (e.cleanup.2 ++ e.cleanup.1.cleanup.2).length ≤ 1 ∧
      (∀ (p : Impl Ctx) (c : Ctx), e.pImpl = some p → p.ctx = some c →
        e.cleanup.2 ++ e.cleanup.1.cleanup.2 = [EngineCall.free c])) ∧
    (Cleanup (none : Option (WhisperEngine Ctx)) = (none, [])) ∧
    (∀ g_engine : Option (WhisperEngine Ctx),
      IsInitialized (Cleanup g_engine).1 = false ∧
      Cleanup (Cleanup g_engine).1 = ((Cleanup g_engine).1, []) ∧
      ((Cleanup g_engine).2 ++ (Cleanup (Cleanup g_engine).1).2).length ≤ 1) := by
  refine ⟨?_, rfl, ?_⟩
  · intro e
    obtain ⟨h1, h2, _, h4⟩ := cleanup_facts e
    refine ⟨h1, h2, ?_, ?_⟩
    · rw [h2]
      simpa using h4
    · intro p c hp hx
      rw [h2, cleanup_of_ctx e p c hp hx]
      rfl
  · intro g
    cases g with
    | none => exact ⟨rfl, rfl, Nat.zero_le _⟩
    | some e =>
      obtain ⟨_, _, h3, h4⟩ := cleanup_facts e
      refine ⟨rfl, rfl, ?_⟩
      unfold Cleanup
      simp only [h3, List.append_nil]
      exact h4

/-- Witness for `cleanup_idempotent`: two cleanups of the demonstration engine release its
context 0 once. -/
theorem cleanup_idempotent_witness :
    demoEngine.cleanup.2 ++ demoEngine.cleanup.1.cleanup.2 = [EngineCall.free 0] :=
  ((cleanup_idempotent Nat).1 demoEngine).2.2.2 ⟨some 0, { modelPath := "model.bin".toList }, [], true⟩
    0 rfl rfl

/-! ## Binary64 rounding: error bound and exactness -/

theorem roundHalfEven_error (a b : Nat) (hb : 0 < b) :
    |((roundHalfEven a b : Nat) : ℚ) - (a : ℚ) / b| ≤ 1 / 2 := by
  have hbq : (0 : ℚ) < b := by exact_mod_cast hb
  have hdiv : (a : ℚ) / b = (a / b : Nat) + ((a % b : Nat) : ℚ) / b := by
    have h := Nat.div_add_mod a b
    have h2 : (a : ℚ) = (b : ℚ) * ((a / b : Nat) : ℚ) + ((a % b : Nat) : ℚ) := by
      exact_mod_cast h.symm
    field_simp
    linarith
  have hr : a % b < b := Nat.mod_lt a hb
  have hrq : ((a % b : Nat) : ℚ) < b := by exact_mod_cast hr
  have hr0 : (0 : ℚ) ≤ ((a % b : Nat) : ℚ) := by positivity
  unfold roundHalfEven
  simp only
  rw [hdiv]
  by_cases h1 : 2 * (a % b) < b
  · rw [if_pos h1]
    have h1q : (2 : ℚ) * ((a % b : Nat) : ℚ) < b := by exact_mod_cast h1
    rw [abs_le]
    constructor
    · have : ((a % b : Nat) : ℚ) / b ≤ 1 / 2 := by
        rw [div_le_iff₀ hbq]; linarith
      linarith
    · have : (0 : ℚ) ≤ ((a % b : Nat) : ℚ) / b := by positivity
      linarith
  · rw [if_neg h1]
    have hup : ((a % b : Nat) : ℚ) / b < 1 := by
      rw [div_lt_iff₀ hbq]; linarith
    have hlo : (1 : ℚ) / 2 ≤ ((a % b : Nat) : ℚ) / b := by
      rw [le_div_iff₀ hbq]
      have : b ≤ 2 * (a % b) := Nat.le_of_not_lt h1
      have : (b : ℚ) ≤ 2 * ((a % b : Nat) : ℚ) := by exact_mod_cast this
      linarith
    by_cases h2 : b < 2 * (a % b)
    · rw [if_pos h2]
      push_cast
      rw [abs_le]
      constructor <;> linarith
    · rw [if_neg h2]
      have heq : 2 * (a % b) = b := by omega
      have heqq : ((a % b : Nat) : ℚ) / b = 1 / 2 := by
        have : (2 : ℚ) * ((a % b : Nat) : ℚ) = b := by exact_mod_cast heq
        rw [div_eq_iff (ne_of_gt hbq)]; linarith
      by_cases h3 : a / b % 2 = 0
      · rw [if_pos h3, heqq, abs_le]
        constructor <;> linarith
      · rw [if_neg h3, heqq]
        push_cast
        rw [abs_le]
        constructor <;> linarith

theorem roundHalfEven_one (a : Nat) : roundHalfEven a 1 = a := by
  unfold roundHalfEven
  simp [Nat.mod_one]

theorem log2Fuel_spec : ∀ fuel n : Nat, n ≤ fuel → 1 ≤ n →
    2 ^ log2Fuel fuel n ≤ n ∧ n < 2 ^ (log2Fuel fuel n + 1) := by
  intro fuel
  induction fuel with
  | zero => intro n h0 h1; omega
  | succ fuel ih =>
    intro n hn h1
    unfold log2Fuel
    by_cases h2 : 2 ≤ n
    · rw [if_pos h2]
      have hle : n / 2 ≤ fuel := by omega
      have hpos : 1 ≤ n / 2 := by omega
      obtain ⟨ha, hb⟩ := ih (n / 2) hle hpos
      constructor
      · rw [pow_succ]; omega
      · rw [pow_succ]; omega
    · rw [if_neg h2]
      have : n = 1 := by omega
      subst this
      simp

theorem log2_spec (n : Nat) (h : 1 ≤ n) : 2 ^ log2 n ≤ n ∧ n < 2 ^ (log2 n + 1) :=
  log2Fuel_spec n n (Nat.le_refl n) h

theorem ilog2_le (a b : Nat) (ha : 0 < a) (hb : 0 < b) :
    (2 : ℚ) ^ (ilog2 a b) ≤ (a : ℚ) / b := by
  have hbq : (0 : ℚ) < b := by exact_mod_cast hb
  obtain ⟨ha1, _⟩ := log2_spec a ha
  obtain ⟨_, hb2⟩ := log2_spec b hb
  have h2 : (2 : ℚ) ≠ 0 := by norm_num
  unfold ilog2
  simp only
  by_cases hc : 2 ^ log2 a * b ≤ a * 2 ^ log2 b
  · rw [if_pos hc, zpow_sub₀ h2, zpow_natCast, zpow_natCast, div_le_div_iff₀ (by positivity) hbq]
    exact_mod_cast hc
  · rw [if_neg hc, sub_sub, zpow_sub₀ h2, zpow_natCast]
    have : ((log2 b : Int) + 1) = ((log2 b + 1 : Nat) : Int) := by push_cast; ring
    rw [this, zpow_natCast, div_le_div_iff₀ (by positivity) hbq]
    have h3 : 2 ^ log2 a * b ≤ a * 2 ^ (log2 b + 1) :=
      Nat.mul_le_mul ha1 (Nat.le_of_lt hb2)
    exact_mod_cast h3

theorem toDouble_zero (b : Nat) : toDouble 0 b = ⟨0, 1⟩ := by
  unfold toDouble
  simp

theorem toDouble_den_pos (a b : Nat) : 0 < (toDouble a b).den := by
  unfold toDouble
  by_cases ha : a = 0
  · rw [if_pos ha]; exact Nat.one_pos
  · rw [if_neg ha]
    simp only
    split
    · exact Nat.pos_pow_of_pos _ (by decide)
    · exact Nat.one_pos

/-- The relative error of binary64 rounding in the normal range is at most `2 ^ (-53)`. -/
theorem toDouble_error (a b : Nat) (ha : 0 < a) (hb : 0 < b)
    (hmin : (2 : ℚ) ^ (-1022 : Int) ≤ (a : ℚ) / b) :
    |(toDouble a b).toRat - (a : ℚ) / b| ≤ (a : ℚ) / b / 2 ^ 53 := by
  have hbq : (0 : ℚ) < b := by exact_mod_cast hb
  have h2 : (2 : ℚ) ≠ 0 := by norm_num
  have he : (2 : ℚ) ^ (max (ilog2 a b) (-1022)) ≤ (a : ℚ) / b := by
    rcases max_cases (ilog2 a b) (-1022) with ⟨h, _⟩ | ⟨h, _⟩
    · rw [h]; exact ilog2_le a b ha hb
    · rw [h]; exact hmin
  unfold toDouble
  rw [if_neg (Nat.pos_iff_ne_zero.mp ha)]
  simp only
  generalize max (ilog2 a b) (-1022) = e at he
  by_cases hs : 0 ≤ 52 - e
  · rw [if_pos hs]
    obtain ⟨k, hk⟩ := Int.eq_ofNat_of_zero_le hs
    rw [hk, Int.toNat_ofNat]
    have hee : e = 52 - (k : Int) := by omega
    have hpk : (0 : ℚ) < 2 ^ k := by positivity
    have hr := roundHalfEven_error (a * 2 ^ k) b hb
    have hval : (a : ℚ) / b = ((a * 2 ^ k : Nat) : ℚ) / b / 2 ^ k := by
      push_cast; field_simp; ring
    have hq : (2 : ℚ) ^ e = 2 ^ 52 / 2 ^ k := by
      rw [hee, zpow_sub₀ h2, zpow_natCast]; norm_num
    unfold Frac.toRat
    simp only
    have hd : ((roundHalfEven (a * 2 ^ k) b : Nat) : ℚ) / ((2 ^ k : Nat) : ℚ) - (a : ℚ) / b =
        (((roundHalfEven (a * 2 ^ k) b : Nat) : ℚ) - ((a * 2 ^ k : Nat) : ℚ) / b) / 2 ^ k := by
      rw [hval]; push_cast; ring
    rw [hd, abs_div, abs_of_pos hpk]
    calc |((roundHalfEven (a * 2 ^ k) b : Nat) : ℚ) - ((a * 2 ^ k : Nat) : ℚ) / b| / 2 ^ k
        ≤ (1 / 2) / 2 ^ k := by
          apply div_le_div_of_nonneg_right hr (le_of_lt hpk)
      _ = 2 ^ 52 / 2 ^ k / 2 ^ 53 := by field_simp; ring
      _ ≤ (a : ℚ) / b / 2 ^ 53 := by
          apply div_le_div_of_nonneg_right _ (by positivity)
          rw [← hq]; exact he
  · rw [if_neg hs]
    have hs2 : 0 ≤ -(52 - e) := by omega
    obtain ⟨k, hk⟩ := Int.eq_ofNat_of_zero_le hs2
    rw [hk, Int.toNat_ofNat]
    have hee : e = 52 + (k : Int) := by omega
    have hpk : (0 : ℚ) < 2 ^ k := by positivity
    have hbk : 0 < b * 2 ^ k := Nat.mul_pos hb (Nat.pos_pow_of_pos _ (by decide))
    have hr := roundHalfEven_error a (b * 2 ^ k) hbk
    have hq : (2 : ℚ) ^ e = 2 ^ 52 * 2 ^ k := by
      rw [hee, zpow_add₀ h2, zpow_natCast]; norm_num
    unfold Frac.toRat
    simp only
    have hd : ((roundHalfEven a (b * 2 ^ k) * 2 ^ k : Nat) : ℚ) / ((1 : Nat) : ℚ) - (a : ℚ) / b =
        (((roundHalfEven a (b * 2 ^ k) : Nat) : ℚ) - (a : ℚ) / ((b * 2 ^ k : Nat) : ℚ)) * 2 ^ k := by
      push_cast; field_simp; ring
    rw [hd, abs_mul, abs_of_pos hpk]
    calc |((roundHalfEven a (b * 2 ^ k) : Nat) : ℚ) - (a : ℚ) / ((b * 2 ^ k : Nat) : ℚ)| * 2 ^ k
        ≤ (1 / 2) * 2 ^ k := by
          apply mul_le_mul_of_nonneg_right hr (le_of_lt hpk)
      _ = 2 ^ 52 * 2 ^ k / 2 ^ 53 := by field_simp; ring
      _ ≤ (a : ℚ) / b / 2 ^ 53 := by
          apply div_le_div_of_nonneg_right _ (by positivity)
          rw [← hq]; exact he

/-- Integers below `2 ^ 53` convert to `double` exactly. -/
theorem ofNat_exact (n : Nat) (hn : n < 2 ^ 53) : (Frac.ofNat n).toRat = n := by
  unfold Frac.ofNat
  by_cases h0 : n = 0
  · subst h0; rw [toDouble_zero]; simp [Frac.toRat]
  · have hpos : 0 < n := Nat.pos_of_ne_zero h0
    have hlog := ilog2_le n 1 hpos Nat.one_pos
    have hlt : (2 : ℚ) ^ (ilog2 n 1) < 2 ^ (53 : Int) := by
      calc (2 : ℚ) ^ (ilog2 n 1) ≤ (n : ℚ) / (1 : Nat) := hlog
        _ = n := by simp
        _ < 2 ^ (53 : Int) := by
          have : (n : ℚ) < (2 : ℚ) ^ (53 : Nat) := by exact_mod_cast hn
          rw [zpow_ofNat]; exact this
    have hle : ilog2 n 1 < 53 := (zpow_lt_zpow_iff_right₀ (by norm_num : (1 : ℚ) < 2)).mp hlt
    have hs : 0 ≤ 52 - max (ilog2 n 1) (-1022) := by
      rcases max_cases (ilog2 n 1) (-1022) with ⟨h, _⟩ | ⟨h, _⟩ <;> omega
    unfold toDouble
    rw [if_neg h0]
    simp only
    rw [if_pos hs, roundHalfEven_one]
    unfold Frac.toRat
    simp only
    push_cast
    field_simp

set_option maxRecDepth 100000 in
/-- Known binary64 values: `1 / 3` is `0x1.5555555555555p-2`, `1 / 10` is
`0x1.999999999999ap-4`, and above `2 ^ 53` a tie goes to the even significand. -/
theorem toDouble_known_values :
    toDouble 1 3 = ⟨6004799503160661, 2 ^ 54⟩ ∧
      toDouble 1 10 = ⟨7205759403792794, 2 ^ 56⟩ ∧
      Frac.ofNat (2 ^ 53 + 1) = ⟨2 ^ 53, 1⟩ ∧
      Frac.ofNat (2 ^ 53 + 3) = ⟨2 ^ 53 + 4, 1⟩ := by
  decide

/-! ## The resampler's index arithmetic -/

theorem tiny_le (q : ℚ) (h : 1 / 2 ^ 60 ≤ q) : (2 : ℚ) ^ (-1022 : Int) ≤ q := by
  have h1 : (2 : ℚ) ^ (-1022 : Int) ≤ 2 ^ (-60 : Int) :=
    zpow_le_zpow_right₀ (by norm_num) (by norm_num)
  have h2 : (2 : ℚ) ^ (-60 : Int) = 1 / 2 ^ 60 := by
    rw [zpow_neg, zpow_ofNat]; norm_num
  calc (2 : ℚ) ^ (-1022 : Int) ≤ 2 ^ (-60 : Int) := h1
    _ = 1 / 2 ^ 60 := h2
    _ ≤ q := h

theorem Frac.trunc_eq_floor (x : Frac) : x.trunc = ⌊x.toRat⌋₊ := by
  unfold Frac.trunc Frac.toRat
  rw [Nat.floor_div_eq_div]

theorem Frac.num_pos_of_toRat_pos (x : Frac) (h : 0 < x.toRat) : 0 < x.num := by
  rcases Nat.eq_zero_or_pos x.num with h0 | h0
  · unfold Frac.toRat at h
    rw [h0] at h
    simp at h
  · exact h0

theorem Frac.toRat_nonneg (x : Frac) : 0 ≤ x.toRat := by
  unfold Frac.toRat
  positivity

theorem ddiv_error (x y : Frac) (hxn : 0 < x.num) (hxd : 0 < x.den) (hyn : 0 < y.num)
    (hyd : 0 < y.den) (hmin : 1 / 2 ^ 60 ≤ x.toRat / y.toRat) :
    |(ddiv x y).toRat - x.toRat / y.toRat| ≤ x.toRat / y.toRat / 2 ^ 53 := by
  have hq : (((x.num * y.den : Nat) : ℚ)) / ((x.den * y.num : Nat) : ℚ) =
      x.toRat / y.toRat := by
    have h1 : (x.den : ℚ) ≠ 0 := by exact_mod_cast (Nat.pos_iff_ne_zero.mp hxd)
    have h2 : (y.den : ℚ) ≠ 0 := by exact_mod_cast (Nat.pos_iff_ne_zero.mp hyd)
    have h3 : (y.num : ℚ) ≠ 0 := by exact_mod_cast (Nat.pos_iff_ne_zero.mp hyn)
    unfold Frac.toRat
    push_cast
    field_simp
  have h := toDouble_error (x.num * y.den) (x.den * y.num) (Nat.mul_pos hxn hyd)
    (Nat.mul_pos hxd hyn) (by rw [hq]; exact tiny_le _ hmin)
  rw [hq] at h
  exact h

theorem dmul_error (x y : Frac) (hxn : 0 < x.num) (hxd : 0 < x.den) (hyn : 0 < y.num)
    (hyd : 0 < y.den) (hmin : 1 / 2 ^ 60 ≤ x.toRat * y.toRat) :
    |(dmul x y).toRat - x.toRat * y.toRat| ≤ x.toRat * y.toRat / 2 ^ 53 := by
  have hq : (((x.num * y.num : Nat) : ℚ)) / ((x.den * y.den : Nat) : ℚ) =
      x.toRat * y.toRat := by
    have h1 : (x.den : ℚ) ≠ 0 := by exact_mod_cast (Nat.pos_iff_ne_zero.mp hxd)
    have h2 : (y.den : ℚ) ≠ 0 := by exact_mod_cast (Nat.pos_iff_ne_zero.mp hyd)
    unfold Frac.toRat
    push_cast
    field_simp
  have h := toDouble_error (x.num * y.num) (x.den * y.den) (Nat.mul_pos hxn hyn)
    (Nat.mul_pos hxd hyd) (by rw [hq]; exact tiny_le _ hmin)
  rw [hq] at h
  exact h

/-- The conversion of a positive integer below `2 ^ 53`: exact, with positive numerator and
denominator. -/
theorem ofNat_facts (n : Nat) (h0 : 0 < n) (hn : n < 2 ^ 53) :
    (Frac.ofNat n).toRat = n ∧ 0 < (Frac.ofNat n).num ∧ 0 < (Frac.ofNat n).den := by
  have h := ofNat_exact n hn
  refine ⟨h, ?_, toDouble_den_pos n 1⟩
  apply Frac.num_pos_of_toRat_pos
  rw [h]
  exact_mod_cast h0

/-- The computed ratio is within relative error `2 ^ (-53)` of `16000 / sampleRate`. -/
theorem ratio_facts (sr : Nat) (hsr : 0 < sr) (hsr31 : sr < 2 ^ 31) :
    |(ratio sr).toRat - 16000 / sr| ≤ 16000 / sr / 2 ^ 53 ∧
      0 < (ratio sr).num ∧ 0 < (ratio sr).den := by
  have hsrq : (0 : ℚ) < sr := by exact_mod_cast hsr
  have hsr31q : (sr : ℚ) < 2 ^ 31 := by exact_mod_cast hsr31
  obtain ⟨hA, hAn, hAd⟩ := ofNat_facts WHISPER_SAMPLE_RATE (by decide) (by decide)
  obtain ⟨hB, hBn, hBd⟩ := ofNat_facts sr hsr (by omega)
  have hA2 : (Frac.ofNat WHISPER_SAMPLE_RATE).toRat = 16000 := by
    rw [hA]; norm_num [WHISPER_SAMPLE_RATE]
  have hmin : (1 : ℚ) / 2 ^ 60 ≤ 16000 / sr := by
    rw [div_le_div_iff₀ (by positivity) hsrq]
    nlinarith
  have h := ddiv_error _ _ hAn hAd hBn hBd (by rw [hA2, hB]; exact hmin)
  rw [hA2, hB] at h
  have hpos : 0 < (ratio sr).toRat := by
    have hr : (0 : ℚ) < 16000 / sr := by positivity
    have h1 := (abs_le.mp h).1
    have : (16000 : ℚ) / sr / 2 ^ 53 ≤ 16000 / sr / 2 := by
      apply div_le_div_of_nonneg_left (le_of_lt hr) (by norm_num) (by norm_num)
    unfold ratio
    linarith
  exact ⟨h, Frac.num_pos_of_toRat_pos _ hpos, toDouble_den_pos _ _⟩

theorem newSize_zero (sr : Nat) : newSize 0 sr = 0 := by
  unfold newSize dmul Frac.ofNat
  rw [toDouble_zero]
  simp only [Nat.zero_mul]
  rw [toDouble_zero]
  rfl

theorem idx0_zero (sr : Nat) : idx0 sr 0 = 0 := by
  unfold idx0 srcIdx ddiv Frac.ofNat
  rw [toDouble_zero]
  simp only [Nat.zero_mul]
  rw [toDouble_zero]
  rfl

/-- The ratio scaled by the sample rate: `ratio * sr` is within `16000 / 2 ^ 53` of 16000. -/
theorem ratio_scaled (sr : Nat) (hsr : 0 < sr) (hsr31 : sr < 2 ^ 31) :
    (ratio sr).toRat * sr ≤ 16000 + 16000 / 2 ^ 53 ∧
      16000 - 16000 / 2 ^ 53 ≤ (ratio sr).toRat * sr ∧
      0 < (ratio sr).toRat := by
  have hsrq : (0 : ℚ) < sr := by exact_mod_cast hsr
  obtain ⟨hR, hRn, hRd⟩ := ratio_facts sr hsr hsr31
  obtain ⟨hR1, hR2⟩ := abs_le.mp hR
  generalize (ratio sr).toRat = R at hR hR1 hR2 ⊢
  have e1 : (16000 : ℚ) / sr * sr = 16000 := by field_simp
  have e2 : (16000 : ℚ) / sr / 2 ^ 53 * sr = 16000 / 2 ^ 53 := by field_simp; ring
  have h1 := mul_le_mul_of_nonneg_right hR2 (le_of_lt hsrq)
  have h2 := mul_le_mul_of_nonneg_right hR1 (le_of_lt hsrq)
  rw [sub_mul, e1, e2] at h1
  rw [sub_mul, neg_mul, e1, e2] at h2
  refine ⟨by linarith, by linarith, ?_⟩
  have h3 : (0 : ℚ) < R * sr := by
    have : (16000 : ℚ) / 2 ^ 53 < 16000 := by norm_num
    linarith
  by_contra hneg
  have hR0 : R ≤ 0 := not_lt.mp hneg
  have : R * sr ≤ 0 := mul_nonpos_iff.mpr (Or.inr ⟨hR0, le_of_lt hsrq⟩)
  linarith

/-- The product `sampleCount * ratio`, as computed, is closer than `1 / sampleRate` to the
exact `16000 * sampleCount / sampleRate`, and it is at most `n * ratio * (1 + 2 ^ (-53))`. -/
theorem product_facts (n sr : Nat) (hn0 : 0 < n) (hsr : 0 < sr) (hsr31 : sr < 2 ^ 31)
    (hn : 16000 * n < 2 ^ 52) :
    (dmul (Frac.ofNat n) (ratio sr)).toRat * sr - 16000 * n < 1 ∧
      -1 < (dmul (Frac.ofNat n) (ratio sr)).toRat * sr - 16000 * n ∧
      (dmul (Frac.ofNat n) (ratio sr)).toRat ≤
        n * (ratio sr).toRat + n * (ratio sr).toRat / 2 ^ 53 := by
  have hsrq : (0 : ℚ) < sr := by exact_mod_cast hsr
  have hsr31q : (sr : ℚ) ≤ 2 ^ 31 := by exact_mod_cast (le_of_lt hsr31)
  have hn0q : (1 : ℚ) ≤ n := by exact_mod_cast hn0
  have hnq : (16000 : ℚ) * n ≤ 2 ^ 52 - 1 := by
    have : 16000 * n + 1 ≤ 2 ^ 52 := hn
    have h2 : ((16000 * n + 1 : Nat) : ℚ) ≤ ((2 ^ 52 : Nat) : ℚ) := by exact_mod_cast this
    push_cast at h2
    linarith
  obtain ⟨_, hRn, hRd⟩ := ratio_facts sr hsr hsr31
  obtain ⟨hRs1, hRs2, hRpos⟩ := ratio_scaled sr hsr hsr31
  obtain ⟨hN, hNn, hNd⟩ := ofNat_facts n hn0 (by omega)
  have hRlo : (1 : ℚ) / 2 ^ 60 ≤ (ratio sr).toRat := by
    have h1 : (8000 : ℚ) ≤ (ratio sr).toRat * sr := by
      have : (16000 : ℚ) / 2 ^ 53 ≤ 8000 := by norm_num
      linarith
    have h2 : (ratio sr).toRat * sr ≤ (ratio sr).toRat * 2 ^ 31 :=
      mul_le_mul_of_nonneg_left hsr31q (le_of_lt hRpos)
    have h3 : (1 : ℚ) / 2 ^ 60 * 2 ^ 31 ≤ (ratio sr).toRat * 2 ^ 31 := by
      have : (1 : ℚ) / 2 ^ 60 * 2 ^ 31 ≤ 8000 := by norm_num
      linarith
    exact le_of_mul_le_mul_right h3 (by norm_num)
  have hmin : (1 : ℚ) / 2 ^ 60 ≤ (Frac.ofNat n).toRat * (ratio sr).toRat := by
    rw [hN]
    have h2 : (ratio sr).toRat ≤ n * (ratio sr).toRat :=
      le_mul_of_one_le_left (le_of_lt hRpos) hn0q
    linarith
  have hP := dmul_error (Frac.ofNat n) (ratio sr) hNn hNd hRn hRd hmin
  rw [hN] at hP
  obtain ⟨hP1, hP2⟩ := abs_le.mp hP
  generalize (dmul (Frac.ofNat n) (ratio sr)).toRat = P at hP hP1 hP2 ⊢
  generalize (ratio sr).toRat = R at hRs1 hRs2 hRpos hP hP1 hP2 ⊢
  have hnn : (0 : ℚ) ≤ n := by linarith
  -- the atoms below are `P * sr`, `n * (R * sr)` and `n`
  have hPs1 : P * sr - n * (R * sr) ≤ n * (R * sr) / 2 ^ 53 := by
    have h := mul_le_mul_of_nonneg_right hP2 (le_of_lt hsrq)
    have e1 : (P - n * R) * sr = P * sr - n * (R * sr) := by ring
    have e2 : (n : ℚ) * R / 2 ^ 53 * sr = n * (R * sr) / 2 ^ 53 := by ring
    rw [e1, e2] at h
    exact h
  have hPs2 : -(n * (R * sr) / 2 ^ 53) ≤ P * sr - n * (R * sr) := by
    have h := mul_le_mul_of_nonneg_right hP1 (le_of_lt hsrq)
    have e1 : (P - n * R) * sr = P * sr - n * (R * sr) := by ring
    have e2 : -((n : ℚ) * R / 2 ^ 53) * sr = -(n * (R * sr) / 2 ^ 53) := by ring
    rw [e1, e2] at h
    exact h
  have ht1 : (n : ℚ) * (R * sr) ≤ n * (16000 + 16000 / 2 ^ 53) :=
    mul_le_mul_of_nonneg_left hRs1 hnn
  have ht2 : (n : ℚ) * (16000 - 16000 / 2 ^ 53) ≤ n * (R * sr) :=
    mul_le_mul_of_nonneg_left hRs2 hnn
  generalize P * (sr : ℚ) = Ps at hPs1 hPs2 ⊢
  generalize (n : ℚ) * (R * sr) = t at hPs1 hPs2 ht1 ht2
  refine ⟨?_, ?_, ?_⟩
  · linarith
  · linarith
  · linarith

/-! ## Resampling length -/

theorem audioData_length {Ctx Sample : Type} (env : Env Ctx Sample)
    (samples : List Sample) (sr : Nat) (hne : sr ≠ WHISPER_SAMPLE_RATE) :
    (audioData env samples sr).length = newSize samples.length sr := by
  unfold audioData
  rw [if_pos hne, List.length_map, List.length_range]

set_option maxRecDepth 100000 in
/-- Claim C3, the counterexample: 19 samples at a source rate of 19 Hz.  The quotient
`16000 / 19` is rounded down to the `double` `7407236229227789 / 2 ^ 43`, its product with
19 is rounded to `16000 - 2 ^ (-39)`, and the truncation gives 15999 samples where
`⌊19 * 16000 / 19⌋` is 16000. -/
theorem newSize_19_19 :
    0 < 19 ∧ 19 ≠ WHISPER_SAMPLE_RATE ∧
      ratio 19 = ⟨7407236229227789, 2 ^ 43⟩ ∧
      dmul (Frac.ofNat 19) (ratio 19) = ⟨8796093022207999, 2 ^ 39⟩ ∧
      newSize 19 19 = 15999 ∧ 19 * 16000 / 19 = 16000 ∧
      (audioData demoEnv (List.replicate 19 0) 19).length = 15999 := by
  refine ⟨by decide, by decide, by decide, by decide, by decide, by decide, ?_⟩
  rw [audioData_length demoEnv _ 19 (by decide), List.length_replicate]
  decide

theorem newSize_eq_floor (n sr : Nat) :
    newSize n sr = ⌊(dmul (Frac.ofNat n) (ratio sr)).toRat⌋₊ := by
  unfold newSize
  rw [Frac.trunc_eq_floor]

theorem newSize_floor_cases (n sr : Nat) (hsr : 0 < sr) (hsr31 : sr < 2 ^ 31)
    (hn : 16000 * n < 2 ^ 52) :
    (¬ sr ∣ n * 16000 → newSize n sr = n * 16000 / sr) ∧
    (newSize n sr = n * 16000 / sr ∨ newSize n sr + 1 = n * 16000 / sr) := by
  rcases Nat.eq_zero_or_pos n with h0 | hn0
  · subst h0
    rw [newSize_zero]
    simp
  · obtain ⟨hP1, hP2, _⟩ := product_facts n sr hn0 hsr hsr31 hn
    rw [newSize_eq_floor]
    have hP0 := Frac.toRat_nonneg (dmul (Frac.ofNat n) (ratio sr))
    generalize (dmul (Frac.ofNat n) (ratio sr)).toRat = P at hP1 hP2 hP0 ⊢
    have hsrq : (0 : ℚ) < sr := by exact_mod_cast hsr
    have hsr1 : (1 : ℚ) ≤ sr := by exact_mod_cast hsr
    have hdm : sr * (n * 16000 / sr) + n * 16000 % sr = n * 16000 := Nat.div_add_mod _ _
    have hmlt : n * 16000 % sr < sr := Nat.mod_lt _ hsr
    have hdmq : (sr : ℚ) * ((n * 16000 / sr : Nat) : ℚ) + ((n * 16000 % sr : Nat) : ℚ) =
        16000 * n := by
      have : ((sr * (n * 16000 / sr) + n * 16000 % sr : Nat) : ℚ) = ((n * 16000 : Nat) : ℚ) := by
        rw [hdm]
      push_cast at this
      linarith
    have hmltq : ((n * 16000 % sr : Nat) : ℚ) + 1 ≤ sr := by exact_mod_cast hmlt
    have hm0 : (0 : ℚ) ≤ ((n * 16000 % sr : Nat) : ℚ) := Nat.cast_nonneg _
    generalize n * 16000 / sr = q at hdm hdmq ⊢
    have hupper : P < (q : ℚ) + 1 := by
      have : P * sr < ((q : ℚ) + 1) * sr := by nlinarith
      exact lt_of_mul_lt_mul_right this (le_of_lt hsrq)
    have hcase1 : 1 ≤ n * 16000 % sr → ⌊P⌋₊ = q := by
      intro hm
      have hmq : (1 : ℚ) ≤ ((n * 16000 % sr : Nat) : ℚ) := by exact_mod_cast hm
      rw [Nat.floor_eq_iff hP0]
      refine ⟨?_, hupper⟩
      have : (q : ℚ) * sr ≤ P * sr := by nlinarith
      exact le_of_mul_le_mul_right this hsrq
    refine ⟨?_, ?_⟩
    · intro hdvd
      apply hcase1
      rcases Nat.eq_zero_or_pos (n * 16000 % sr) with hz | hp
      · exact absurd (Nat.dvd_of_mod_eq_zero hz) hdvd
      · exact hp
    · rcases Nat.eq_zero_or_pos (n * 16000 % sr) with hz | hp
      · rw [hz] at hdmq
        simp only [Nat.cast_zero, add_zero] at hdmq
        by_cases hle : (q : ℚ) ≤ P
        · left
          rw [Nat.floor_eq_iff hP0]
          exact ⟨hle, hupper⟩
        · right
          have hlt : P < q := not_le.mp hle
          have hq1 : 1 ≤ q := by
            rcases Nat.eq_zero_or_pos q with hq0 | hq0
            · rw [hq0] at hlt
              simp only [Nat.cast_zero] at hlt
              linarith
            · exact hq0
          have hfl : ⌊P⌋₊ = q - 1 := by
            rw [Nat.floor_eq_iff hP0]
            have hc : ((q - 1 : Nat) : ℚ) = (q : ℚ) - 1 := by
              rw [Nat.cast_sub hq1]; simp
            rw [hc]
            refine ⟨?_, by linarith⟩
            have : ((q : ℚ) - 1) * sr ≤ P * sr := by nlinarith
            exact le_of_mul_le_mul_right this hsrq
          rw [hfl]
          omega
      · exact Or.inl (hcase1 hp)

/-- Claim C3, as amended: for a source rate `sr` with `0 < sr < 2 ^ 31` and an input of `n`
samples with `16000 * n < 2 ^ 52`, the resampled sequence has exactly
`⌊n * 16000 / sr⌋` samples when `sr` does not divide `n * 16000`, and that number or one
less when it does; this is the length of the sequence handed to the engine when
`sr ≠ 16000`. -/
theorem newSize_length (n sr : Nat) (hsr : 0 < sr) (hsr31 : sr < 2 ^ 31)
    (hn : 16000 * n < 2 ^ 52) :
    (¬ sr ∣ n * 16000 → newSize n sr = n * 16000 / sr) ∧
    (newSize n sr = n * 16000 / sr ∨ newSize n sr + 1 = n * 16000 / sr) ∧
    (∀ (Ctx Sample : Type) (env : Env Ctx Sample) (samples : List Sample),
      samples.length = n → sr ≠ WHISPER_SAMPLE_RATE →
      (audioData env samples sr).length = newSize n sr) := by
  refine ⟨(newSize_floor_cases n sr hsr hsr31 hn).1, (newSize_floor_cases n sr hsr hsr31 hn).2,
    ?_⟩
  intro Ctx Sample env samples hl hne
  rw [audioData_length env samples sr hne, hl]

set_option maxRecDepth 100000 in
/-- Witness for `newSize_length`: 7 samples at 44100 Hz give `⌊7 * 16000 / 44100⌋ = 2`
samples, and 19 samples at 19 Hz give one less than 16000. -/
theorem newSize_length_witness :
    newSize 7 44100 = 7 * 16000 / 44100 ∧ newSize 19 19 + 1 = 19 * 16000 / 19 :=
  ⟨(newSize_length 7 44100 (by decide) (by decide) (by decide)).1 (by decide),
    by decide⟩

/-! ## Resampling boundary safety -/

/-- The product `sampleCount * ratio`, as computed, is within relative error `2 ^ (-53)` of
the exact product with the computed ratio, for every input length below `2 ^ 53`. -/
theorem product_error (n sr : Nat) (hn0 : 0 < n) (hn53 : n < 2 ^ 53) (hsr : 0 < sr)
    (hsr31 : sr < 2 ^ 31) :
    |(dmul (Frac.ofNat n) (ratio sr)).toRat - n * (ratio sr).toRat| ≤
      n * (ratio sr).toRat / 2 ^ 53 := by
  have hsrq : (0 : ℚ) < sr := by exact_mod_cast hsr
  have hsr31q : (sr : ℚ) ≤ 2 ^ 31 := by exact_mod_cast (le_of_lt hsr31)
  have hn0q : (1 : ℚ) ≤ n := by exact_mod_cast hn0
  obtain ⟨_, hRn, hRd⟩ := ratio_facts sr hsr hsr31
  obtain ⟨_, hRs2, hRpos⟩ := ratio_scaled sr hsr hsr31
  obtain ⟨hN, hNn, hNd⟩ := ofNat_facts n hn0 hn53
  have hRlo : (1 : ℚ) / 2 ^ 60 ≤ (ratio sr).toRat := by
    have h1 : (8000 : ℚ) ≤ (ratio sr).toRat * sr := by
      have : (16000 : ℚ) / 2 ^ 53 ≤ 8000 := by norm_num
      linarith
    have h2 : (ratio sr).toRat * sr ≤ (ratio sr).toRat * 2 ^ 31 :=
      mul_le_mul_of_nonneg_left hsr31q (le_of_lt hRpos)
    have h3 : (1 : ℚ) / 2 ^ 60 * 2 ^ 31 ≤ (ratio sr).toRat * 2 ^ 31 := by
      have : (1 : ℚ) / 2 ^ 60 * 2 ^ 31 ≤ 8000 := by norm_num
      linarith
    exact le_of_mul_le_mul_right h3 (by norm_num)
  have hmin : (1 : ℚ) / 2 ^ 60 ≤ (Frac.ofNat n).toRat * (ratio sr).toRat := by
    rw [hN]
    have h2 : (ratio sr).toRat ≤ n * (ratio sr).toRat :=
      le_mul_of_one_le_left (le_of_lt hRpos) hn0q
    linarith
  have hP := dmul_error (Frac.ofNat n) (ratio sr) hNn hNd hRn hRd hmin
  rw [hN] at hP
  exact hP

/-- The index arithmetic stays inside the input buffer whenever the input length is below
`2 ^ 53` and the output length is at most `2 ^ 51`. -/
theorem idx0_lt (n sr i : Nat) (hsr : 0 < sr) (hsr31 : sr < 2 ^ 31) (hn53 : n < 2 ^ 53)
    (hout : newSize n sr ≤ 2 ^ 51) (hi : i < newSize n sr) : idx0 sr i < n := by
  have hn0 : 0 < n := by
    rcases Nat.eq_zero_or_pos n with h0 | h0
    · subst h0; rw [newSize_zero] at hi; omega
    · exact h0
  rcases Nat.eq_zero_or_pos i with hi0 | hi0
  · subst hi0; rw [idx0_zero]; exact hn0
  · have hsr1 : (1 : ℚ) ≤ sr := by exact_mod_cast hsr
    have hn0q : (1 : ℚ) ≤ n := by exact_mod_cast hn0
    have hP := product_error n sr hn0 hn53 hsr hsr31
    obtain ⟨hPlo, hPhi⟩ := abs_le.mp hP
    obtain ⟨_, hRn, hRd⟩ := ratio_facts sr hsr hsr31
    obtain ⟨hRs1, _, hRpos⟩ := ratio_scaled sr hsr hsr31
    have hP0 := Frac.toRat_nonneg (dmul (Frac.ofNat n) (ratio sr))
    -- `i + 1 ≤ newSize ≤ P < newSize + 1 ≤ 2 ^ 51 + 1`
    have hiP : (i : ℚ) + 1 ≤ (dmul (Frac.ofNat n) (ratio sr)).toRat := by
      rw [newSize_eq_floor] at hi
      have h1 : ((i + 1 : Nat) : ℚ) ≤
          (⌊(dmul (Frac.ofNat n) (ratio sr)).toRat⌋₊ : ℚ) := by
        exact_mod_cast hi
      have h2 := Nat.floor_le hP0
      push_cast at h1
      linarith
    have hPlt : (dmul (Frac.ofNat n) (ratio sr)).toRat < 2 ^ 51 + 1 := by
      have h1 := Nat.lt_floor_add_one (dmul (Frac.ofNat n) (ratio sr)).toRat
      rw [← newSize_eq_floor] at h1
      have h2 : ((newSize n sr : Nat) : ℚ) ≤ ((2 ^ 51 : Nat) : ℚ) := by exact_mod_cast hout
      push_cast at h2
      linarith
    have hi53 : i < 2 ^ 53 := by
      have h1 : (i : ℚ) < ((2 ^ 53 : Nat) : ℚ) := by
        push_cast
        linarith
      exact_mod_cast h1
    obtain ⟨hI, hIn, hId⟩ := ofNat_facts i hi0 hi53
    have hi0q : (1 : ℚ) ≤ i := by exact_mod_cast hi0
    -- `R ≤ 16001`
    have hR16 : (ratio sr).toRat ≤ 16001 := by
      have h1 : (ratio sr).toRat ≤ (ratio sr).toRat * sr :=
        le_mul_of_one_le_right (le_of_lt hRpos) hsr1
      have : (16000 : ℚ) / 2 ^ 53 ≤ 1 := by norm_num
      linarith
    have hmin : (1 : ℚ) / 2 ^ 60 ≤ (Frac.ofNat i).toRat / (ratio sr).toRat := by
      rw [hI, le_div_iff₀ hRpos]
      have : (1 : ℚ) / 2 ^ 60 * (ratio sr).toRat ≤ 1 / 2 ^ 60 * 16001 :=
        mul_le_mul_of_nonneg_left hR16 (by norm_num)
      have : (1 : ℚ) / 2 ^ 60 * 16001 ≤ 1 := by norm_num
      linarith
    have hY := ddiv_error (Frac.ofNat i) (ratio sr) hIn hId hRn hRd hmin
    rw [hI] at hY
    have hY0 := Frac.toRat_nonneg (ddiv (Frac.ofNat i) (ratio sr))
    unfold idx0 srcIdx
    rw [Frac.trunc_eq_floor, Nat.floor_lt hY0]
    obtain ⟨_, hY2⟩ := abs_le.mp hY
    generalize (ddiv (Frac.ofNat i) (ratio sr)).toRat = Y at hY hY2 hY0 ⊢
    generalize (dmul (Frac.ofNat n) (ratio sr)).toRat = P at hP hPlo hPhi hP0 hiP hPlt
    generalize (ratio sr).toRat = R at hRs1 hRpos hR16 hP hPlo hPhi hY hY2 ⊢
    -- multiply the bound on `Y` by `R`
    have hYR : Y * R ≤ i + i / 2 ^ 53 := by
      have h := mul_le_mul_of_nonneg_right hY2 (le_of_lt hRpos)
      have hRne : R ≠ 0 := ne_of_gt hRpos
      have e1 : (Y - i / R) * R = Y * R - i := by field_simp
      have e2 : (i : ℚ) / R / 2 ^ 53 * R = i / 2 ^ 53 := by field_simp; ring
      rw [e1, e2] at h
      linarith
    have hfinal : Y * R < n * R := by
      generalize (n : ℚ) * R = t at hPlo hPhi ⊢
      generalize Y * R = YR at hYR ⊢
      linarith
    exact lt_of_mul_lt_mul_right hfinal (le_of_lt hRpos)

theorem idx1_lt (n sr i : Nat) (hn0 : 0 < n) (hn : n < SIZE_MOD) : idx1 n sr i < n := by
  unfold idx1
  have h : (n + SIZE_MOD - 1) % SIZE_MOD = n - 1 := by
    have e : n + SIZE_MOD - 1 = (n - 1) + SIZE_MOD := by omega
    rw [e, Nat.add_mod_right, Nat.mod_eq_of_lt (by omega)]
  rw [h]
  have := Nat.min_le_right ((idx0 sr i + 1) % SIZE_MOD) (n - 1)
  omega

theorem getD_irrelevant {α : Type} (l : List α) (j : Nat) (x y : α) (h : j < l.length) :
    l.getD j x = l.getD j y := by
  rw [List.getD_eq_getElem l x h, List.getD_eq_getElem l y h]

set_option maxRecDepth 100000 in
/-- The bound on the output length in `idx0_lt` cannot be dropped: with 600000000000 samples
at 1 Hz the output length would be 9600000000000000 floats (38 PB, far beyond what line 86
can allocate); the index 9599999999999999 is odd and above `2 ^ 53`, its conversion to
`double` rounds to 9600000000000000, and `idx0` would be the input length itself. -/
theorem idx0_at_unallocatable_length :
    newSize 600000000000 1 = 9600000000000000 ∧
      Frac.ofNat 9599999999999999 = ⟨9600000000000000, 1⟩ ∧
      idx0 1 9599999999999999 = 600000000000 ∧
      resampleReads (2 ^ 51) 600000000000 1 = [] := by
  refine ⟨by decide, by decide, by decide, ?_⟩
  unfold resampleReads resizeSucceeds
  have h : newSize 600000000000 1 = 9600000000000000 := by decide
  rw [h]
  decide

/-- Claim C4: resampling reads in-bounds samples only.  On a machine that can hold
`capacity ≤ 2 ^ 51` floats (8 PiB) and holds the `n` input samples, for every source rate
`sr` with `0 < sr < 2 ^ 31`: when line 86 can allocate the output, every output index `i`
below the computed output length has `idx0 < n` and `idx1 < n`, and when it cannot, the
loop is not reached; so every index read is below `n`, and the audio handed to the engine
does not depend on what lies outside the buffer.  For `n = 0`, at any rate and capacity, the
output is empty and no sample is read; `n = 1` is the case of the witness. -/
theorem resample_in_bounds (capacity n sr : Nat) (hcap : capacity ≤ 2 ^ 51)
    (hin : n ≤ capacity) (hsr : 0 < sr) (hsr31 : sr < 2 ^ 31) :
    (∀ i, resizeSucceeds capacity (newSize n sr) = true → i < newSize n sr →
      idx0 sr i < n ∧ idx1 n sr i < n) ∧
    (∀ j ∈ resampleReads capacity n sr, j < n) ∧
    (∀ (Ctx Sample : Type) (env : Env Ctx Sample) (samples : List Sample) (x : Sample),
      samples.length = n → resizeSucceeds capacity (newSize n sr) = true →
      audioData { env with outOfRange := x } samples sr = audioData env samples sr) ∧
    (∀ cap rate : Nat, newSize 0 rate = 0 ∧ resampleReads cap 0 rate = []) := by
  have hmain : ∀ i, resizeSucceeds capacity (newSize n sr) = true → i < newSize n sr →
      idx0 sr i < n ∧ idx1 n sr i < n := by
    intro i hres hi
    have hout : newSize n sr ≤ 2 ^ 51 := by
      unfold resizeSucceeds at hres
      exact le_trans (of_decide_eq_true hres) hcap
    have hn53 : n < 2 ^ 53 := by
      have : (2 : Nat) ^ 51 < 2 ^ 53 := by decide
      omega
    have h0 := idx0_lt n sr i hsr hsr31 hn53 hout hi
    have hn0 : 0 < n := by omega
    have hlt : n < SIZE_MOD := by
      have : (2 : Nat) ^ 53 < SIZE_MOD := by decide
      omega
    exact ⟨h0, idx1_lt n sr i hn0 hlt⟩
  refine ⟨hmain, ?_, ?_, ?_⟩
  · intro j hj
    unfold resampleReads at hj
    by_cases hres : resizeSucceeds capacity (newSize n sr) = true
    · rw [if_pos hres, List.mem_flatMap] at hj
      obtain ⟨i, hi, hji⟩ := hj
      rw [List.mem_range] at hi
      obtain ⟨h0, h1⟩ := hmain i hres hi
      unfold readIndices at hji
      simp only [List.mem_cons, List.mem_singleton, List.mem_nil_iff, or_false] at hji
      rcases hji with rfl | rfl
      · exact h0
      · exact h1
    · rw [if_neg hres] at hj
      cases hj
  · intro Ctx Sample env samples x hlen hres
    unfold audioData
    by_cases hne : sr ≠ WHISPER_SAMPLE_RATE
    · rw [if_pos hne, if_pos hne]
      apply List.map_congr_left
      intro i hi
      rw [List.mem_range, hlen] at hi
      obtain ⟨h0, h1⟩ := hmain i hres hi
      unfold resampleAt
      simp only
      rw [getD_irrelevant samples (idx0 sr i) x env.outOfRange (by rw [hlen]; exact h0),
        hlen, getD_irrelevant samples (idx1 n sr i) x env.outOfRange (by rw [hlen]; exact h1)]
    · rw [if_neg hne, if_neg hne]
  · intro cap rate
    have h := newSize_zero rate
    refine ⟨h, ?_⟩
    unfold resampleReads
    rw [h]
    split <;> rfl

set_option maxRecDepth 100000 in
/-- Witness for `resample_in_bounds`: with room for `2 ^ 30` floats, one sample at 8000 Hz
gives two output samples, and the second of them reads index 0 twice. -/
theorem resample_in_bounds_witness :
    newSize 1 8000 = 2 ∧ resampleReads (2 ^ 30) 1 8000 = [0, 0, 0, 0] ∧
      (idx0 8000 1 < 1 ∧ idx1 1 8000 1 < 1) :=
  ⟨by decide, by decide,
    (resample_in_bounds (2 ^ 30) 1 8000 (by decide) (by decide) (by decide) (by decide)).1 1
      (by decide) (by decide)⟩

end WhisperCoreML
